import Mathlib

/-!
Verification of the IsaProMe client-side work-distribution engine.

The definitions below are a shallow embedding of the scheduler found in the
App component (startProcessing, spawnWorker, checkCompletion) and of the
metadata normalization in services/geminiService.ts.  Stateful code is
modelled by an explicit state record together with a small-step relation:
every constructor of the step relation corresponds to one atomic segment of
the cooperative event loop (code executed between two suspension points).
-/

namespace IsaProMe

/-! ### Item state (types.ts, ProcessingStatus / FileItem) -/

/-- Status lifecycle of a work item, from types.ts. -/
inductive ProcessingStatus
  | pending
  | processing
  | completed
  | failed
deriving DecidableEq, Repr

/-- The parts of a FileItem the scheduler reads and writes: the unique id,
the current status and the recorded error detail.  The remaining fields
(file handle, preview url, metadata, thumbnail) are never inspected by the
scheduling logic. -/
structure FileItem where
  id : String
  status : ProcessingStatus
  error : Option String
deriving DecidableEq, Repr

/-! ### Error classification (spawnWorker catch block) -/

/-- Substring test on character lists: does the second list contain the
first as a contiguous run?  This models the JavaScript
String.prototype.includes used by the worker's error classifier. -/
def hasSub (pat : List Char) : List Char → Bool
  | [] => pat.isEmpty
  | c :: rest => pat.isPrefixOf (c :: rest) || hasSub pat rest

/-- String form of the substring test, as in errorMsg.includes(pattern). -/
def strIncludes (s pat : String) : Bool :=
  hasSub pat.toList s.toList

/-- The worker's error classifier: String(error).toLowerCase() is searched
for the credential-exhaustion signals.  Translated from the catch block of
spawnWorker. -/
def isKeyError (err : String) : Bool :=
  let errorMsg := String.mk (err.toList.map Char.toLower)
  strIncludes errorMsg "429" ||
  strIncludes errorMsg "403" ||
  strIncludes errorMsg "quota" ||
  strIncludes errorMsg "timeout" ||
  strIncludes errorMsg "fetch failed" ||
  strIncludes errorMsg "overloaded"

/-- The message of the rejection produced by the generation call's built-in
60-second timer, as JavaScript renders it through String(error): an Error
constructed from a message stringifies as the word Error, a colon, a space
and the message. -/
def builtinTimeoutMessage : String :=
  "Error: Request timed out (60s limit)"

/-! ### Metadata normalization (geminiService.ts, generateMetadataForFile) -/

/-- A stock category entry from the CATEGORIES constant.  Only the id field
is inspected by the normalization logic. -/
structure Category where
  id : String
  en : String
  id_lang : String
deriving DecidableEq, Repr

/-- One language slot of the model's parsed JSON answer.  Each field is
optional: the response schema requests them but the code guards with
optional chaining, so absence must be representable. -/
structure ParsedLocalized where
  title : Option String
  keywords : Option String
deriving DecidableEq, Repr

/-- The parsed JSON answer of the model as the code reads it. -/
structure ParsedResponse where
  en : Option ParsedLocalized
  ind : Option ParsedLocalized
  category : Option String
deriving DecidableEq, Repr

/-- One language slot of the returned metadata. -/
structure LocalizedContent where
  title : String
  keywords : String
deriving DecidableEq, Repr

/-- The metadata record returned to the scheduler. -/
structure FileMetadata where
  en : LocalizedContent
  ind : LocalizedContent
  category : String
deriving DecidableEq, Repr

/-- JavaScript x-or-empty: parsed.en?.title || "" yields the string when it
is present and the empty string when the field or its parent is absent
(an empty string is mapped to itself, which the same expression returns). -/
def orEmpty : Option String → String
  | none => ""
  | some s => s

/-- Category validation from generateMetadataForFile: keep the model's
category when its id occurs in CATEGORIES, otherwise fall back to the
literal id 8.  parsed.category being absent behaves like an id that is not
in the list. -/
def validCategory (cats : List Category) (c : Option String) : String :=
  match c with
  | some c => if cats.any (fun cat => cat.id = c) then c else "8"
  | none => "8"

/-- The metadata object built by generateMetadataForFile after a successful
parse, translated field by field from the return statement. -/
def normalizeMetadata (cats : List Category) (parsed : ParsedResponse) : FileMetadata :=
  { en :=
      { title := orEmpty (parsed.en.bind ParsedLocalized.title)
        keywords := orEmpty (parsed.en.bind ParsedLocalized.keywords) }
    ind :=
      { title := orEmpty (parsed.ind.bind ParsedLocalized.title)
        keywords := orEmpty (parsed.ind.bind ParsedLocalized.keywords) }
    category := validCategory cats parsed.category }

/-! ### Credential pool primitives (spawnWorker key selection) -/

/-- Purge of expired cooldown entries: the loop over
cooldownKeysRef.current.entries() deletes every entry whose expiry lies
strictly before the current time (now > expiry). -/
def purgeCooldowns (now : Nat) (cd : List (String × Nat)) : List (String × Nat) :=
  cd.filter (fun p => ¬ p.2 < now)

/-- activeKeysRef.current.has(key): the key is currently borrowed. -/
def isBusyKey (active : List String) (k : String) : Bool :=
  decide (k ∈ active)

/-- cooldownKeysRef.current.has(key): some cooldown entry names the key. -/
def isCoolingKey (cd : List (String × Nat)) (k : String) : Bool :=
  decide (∃ p ∈ cd, p.1 = k)

/-- A key may be handed out when it is neither busy nor cooling. -/
def isEligible (active : List String) (cd : List (String × Nat)) (k : String) : Bool :=
  !isBusyKey active k && !isCoolingKey cd k

/-- The round-robin scan of spawnWorker: starting from offset i with the
given number of loop iterations left, probe apiKeys at (ptr + i) mod n and
return the first eligible key together with the advanced rotation pointer
(idx + 1) mod n. -/
def selectKeyLoop (keys active : List String) (cd : List (String × Nat)) (ptr : Nat) :
    Nat → Nat → Option (String × Nat)
  | _, 0 => none
  | i, rem + 1 =>
    let n := keys.length
    let idx := (ptr + i) % n
    match keys[idx]? with
    | none => none
    | some k =>
      if isEligible active cd k then some (k, (idx + 1) % n)
      else selectKeyLoop keys active cd ptr (i + 1) rem

/-- selectCredential without the purge: one full cycle over the key list
beginning at the rotation pointer. -/
def selectKey (keys active : List String) (cd : List (String × Nat)) (ptr : Nat) :
    Option (String × Nat) :=
  selectKeyLoop keys active cd ptr 0 keys.length

/-- Map.set on the cooldown map: any previous entry for the key is replaced
by the new expiry. -/
def setCooldown (cd : List (String × Nat)) (k : String) (e : Nat) : List (String × Nat) :=
  (k, e) :: cd.filter (fun p => ¬ p.1 = k)

/-- First cooldown entry recorded for a key, if any. -/
def lookupCooldown (cd : List (String × Nat)) (k : String) : Option Nat :=
  (cd.find? (fun p => p.1 = k)).map Prod.snd

/-! ### Scheduler state -/

/-- The control point of one logical worker between suspension points.
start is the top of the spawnWorker body; inFlight covers the awaited
generation call with the popped item and the borrowed key; throttled is the
1-second no-credential wait with its wake-up time; dead is a worker that
returned. -/
inductive WorkerPC
  | start
  | inFlight (fileId : String) (key : String)
  | throttled (wake : Nat)
  | dead
deriving DecidableEq, Repr

/-- Is the worker in the middle of a generation call? -/
def WorkerPC.isInFlight : WorkerPC → Bool
  | .inFlight _ _ => true
  | _ => false

/-- The shared mutable scheduler state: processingRef, activeWorkersRef,
queueRef, activeKeysRef, cooldownKeysRef, nextKeyIdxRef, the files
collection, the per-worker control points, the pending checkCompletion
timers (stored as their earliest firing times) and the current clock. -/
structure SchedState where
  processing : Bool
  activeWorkers : Nat
  queue : List String
  activeKeys : List String
  cooldowns : List (String × Nat)
  nextKeyIdx : Nat
  files : List FileItem
  workers : List WorkerPC
  pendingChecks : List Nat
  now : Nat
deriving DecidableEq, Repr

/-- setFiles map that rewrites the status of the item with the given id. -/
def setStatus (files : List FileItem) (id : String) (st : ProcessingStatus) : List FileItem :=
  files.map (fun f => if f.id = id then { f with status := st } else f)

/-- setFiles map of the permanent-failure branch: status Failed and the
stringified error recorded. -/
def setFailedStatus (files : List FileItem) (id err : String) : List FileItem :=
  files.map (fun f => if f.id = id then { f with status := .failed, error := some err } else f)

/-! ### The atomic transitions of the worker loop -/

/-- No eligible credential: the popped id is pushed back onto the front of
the queue (leaving the queue as found), the in-flight counter returns to
its previous value, the purge of expired cooldowns persists, and the worker
sleeps until one second from now.  Nothing else changes. -/
def noKeyUpdate (s : SchedState) (w t : Nat) : SchedState :=
  { s with cooldowns := purgeCooldowns t s.cooldowns
           workers := s.workers.set w (.throttled (t + 1000))
           now := t }

/-- A credential was selected: the id leaves the queue, the in-flight
counter rises, the key is marked busy, the rotation pointer advances, the
item becomes Processing and the worker enters the generation call. -/
def gotKeyUpdate (s : SchedState) (w t : Nat) (fid : String) (rest : List String)
    (k : String) (ptr' : Nat) : SchedState :=
  { s with queue := rest
           activeWorkers := s.activeWorkers + 1
           cooldowns := purgeCooldowns t s.cooldowns
           nextKeyIdx := ptr'
           activeKeys := s.activeKeys.insert k
           files := setStatus s.files fid .processing
           workers := s.workers.set w (.inFlight fid k)
           now := t }

/-- The generation call resolved: the item is Completed, the key released,
the counter drops and the worker loops. -/
def successUpdate (s : SchedState) (w t : Nat) (fid k : String) : SchedState :=
  { s with files := setStatus s.files fid .completed
           activeKeys := s.activeKeys.erase k
           activeWorkers := s.activeWorkers - 1
           workers := s.workers.set w .start
           now := t }

/-- The generation call rejected with a credential-exhaustion-class error:
the key is released and cooled down for 30 seconds, the item returns to the
back of the queue with status Pending, the counter drops and the worker
loops. -/
def keyErrorUpdate (s : SchedState) (w t : Nat) (fid k : String) : SchedState :=
  { s with activeKeys := s.activeKeys.erase k
           queue := s.queue ++ [fid]
           cooldowns := setCooldown s.cooldowns k (t + 30000)
           files := setStatus s.files fid .pending
           activeWorkers := s.activeWorkers - 1
           workers := s.workers.set w .start
           now := t }

/-- The generation call rejected with a permanent-class error: the key is
released, the item becomes Failed with the error recorded, the queue is
untouched, the counter drops and the worker loops. -/
def permErrorUpdate (s : SchedState) (w t : Nat) (fid k e : String) : SchedState :=
  { s with activeKeys := s.activeKeys.erase k
           files := setFailedStatus s.files fid e
           activeWorkers := s.activeWorkers - 1
           workers := s.workers.set w .start
           now := t }

/-- One atomic segment of the cooperative event loop.  Each constructor is
one stretch of spawnWorker or checkCompletion executed without an await;
the clock may advance at every step. -/
inductive Step (keys : List String) : SchedState → SchedState → Prop
  | deadWorker (s : SchedState) (w t : Nat)
      (hw : s.workers[w]? = some .start)
      (hp : s.processing = false)
      (ht : s.now ≤ t) :
      Step keys s { s with workers := s.workers.set w .dead, now := t }
  | emptyQueue (s : SchedState) (w t : Nat)
      (hw : s.workers[w]? = some .start)
      (hp : s.processing = true)
      (hq : s.queue = [])
      (ht : s.now ≤ t) :
      Step keys s { s with
        workers := s.workers.set w .dead
        pendingChecks :=
          if s.activeWorkers = 0 then (t + 1000) :: s.pendingChecks else s.pendingChecks
        now := t }
  | noKey (s : SchedState) (w t : Nat) (fid : String) (rest : List String)
      (hw : s.workers[w]? = some .start)
      (hp : s.processing = true)
      (hq : s.queue = fid :: rest)
      (hsel : selectKey keys s.activeKeys (purgeCooldowns t s.cooldowns) s.nextKeyIdx = none)
      (ht : s.now ≤ t) :
      Step keys s (noKeyUpdate s w t)
  | gotKey (s : SchedState) (w t : Nat) (fid : String) (rest : List String)
      (k : String) (ptr' : Nat)
      (hw : s.workers[w]? = some .start)
      (hp : s.processing = true)
      (hq : s.queue = fid :: rest)
      (hsel : selectKey keys s.activeKeys (purgeCooldowns t s.cooldowns) s.nextKeyIdx
        = some (k, ptr'))
      (ht : s.now ≤ t) :
      Step keys s (gotKeyUpdate s w t fid rest k ptr')
  | finishSuccess (s : SchedState) (w t : Nat) (fid k : String)
      (hw : s.workers[w]? = some (.inFlight fid k))
      (ht : s.now ≤ t) :
      Step keys s (successUpdate s w t fid k)
  | finishKeyError (s : SchedState) (w t : Nat) (fid k e : String)
      (hw : s.workers[w]? = some (.inFlight fid k))
      (he : isKeyError e = true)
      (ht : s.now ≤ t) :
      Step keys s (keyErrorUpdate s w t fid k)
  | finishPermError (s : SchedState) (w t : Nat) (fid k e : String)
      (hw : s.workers[w]? = some (.inFlight fid k))
      (he : isKeyError e = false)
      (ht : s.now ≤ t) :
      Step keys s (permErrorUpdate s w t fid k e)
  | wakeWorker (s : SchedState) (w t wk : Nat)
      (hw : s.workers[w]? = some (.throttled wk))
      (hwk : wk ≤ t)
      (ht : s.now ≤ t) :
      Step keys s { s with workers := s.workers.set w .start, now := t }
  | timerFire (s : SchedState) (t c : Nat)
      (hc : c ∈ s.pendingChecks)
      (htc : c ≤ t)
      (ht : s.now ≤ t) :
      Step keys s { s with
        pendingChecks := s.pendingChecks.erase c
        processing := if s.queue = [] ∧ s.activeWorkers = 0 then false else s.processing
        now := t }

/-! ### startProcessing -/

/-- The ids swept into the queue at the start of a run: the items whose
status is Pending or Failed, in display order. -/
def seedQueue (files : List FileItem) : List String :=
  (files.filter (fun f => f.status = .pending || f.status = .failed)).map FileItem.id

/-- The visual reset performed by startProcessing: every Failed item
becomes Pending with its stored error cleared. -/
def resetFailed (files : List FileItem) : List FileItem :=
  files.map (fun f =>
    if f.status = .failed then { f with status := .pending, error := none } else f)

/-- Smart concurrency sizing: Math.min(20, Math.max(2, apiKeys.length * 2)). -/
def maxConcurrency (numKeys : Nat) : Nat :=
  min 20 (max 2 (numKeys * 2))

/-- The state set up by startProcessing once its guards pass: flags on,
counters reset, queue seeded, busy set cleared, workers spawned.  The
cooldown map and the rotation pointer survive from earlier runs, so they
are parameters. -/
def startState (keys : List String) (files0 : List FileItem)
    (cd0 : List (String × Nat)) (ptr0 t0 : Nat) : SchedState :=
  { processing := true
    activeWorkers := 0
    queue := seedQueue files0
    activeKeys := []
    cooldowns := cd0
    nextKeyIdx := ptr0
    files := resetFailed files0
    workers := List.replicate (maxConcurrency keys.length) .start
    pendingChecks := []
    now := t0 }

/-- The retryItem handler wired to the file cards: it only rewrites the
item's status to Pending and never touches the queue. -/
def retryItem (s : SchedState) (id : String) : SchedState :=
  { s with files := setStatus s.files id .pending }

/-- All states a run can reach from its start state. -/
def Reachable (keys : List String) (files0 : List FileItem)
    (cd0 : List (String × Nat)) (ptr0 t0 : Nat) (s : SchedState) : Prop :=
  Relation.ReflTransGen (Step keys) (startState keys files0 cd0 ptr0 t0) s

/-! ### Characterization of the round-robin selection -/

/-- The key probed during scan iteration i of a cycle starting at ptr. -/
def probe (keys : List String) (ptr i : Nat) : Option String :=
  keys[(ptr + i) % keys.length]?

theorem isEligible_iff (active : List String) (cd : List (String × Nat)) (k : String) :
    isEligible active cd k = true ↔ k ∉ active ∧ ∀ p ∈ cd, p.1 ≠ k := by
  simp only [isEligible, Bool.and_eq_true, Bool.not_eq_true', isBusyKey, isCoolingKey,
    decide_eq_false_iff_not]
  constructor
  · rintro ⟨h1, h2⟩
    exact ⟨h1, fun p hp hpk => h2 ⟨p, hp, hpk⟩⟩
  · rintro ⟨h1, h2⟩
    exact ⟨h1, fun hex => by obtain ⟨p, hp, hpk⟩ := hex; exact h2 p hp hpk⟩

theorem mem_purgeCooldowns (now : Nat) (cd : List (String × Nat)) (p : String × Nat) :
    p ∈ purgeCooldowns now cd ↔ p ∈ cd ∧ ¬ p.2 < now := by
  simp [purgeCooldowns, List.mem_filter]

theorem selectKeyLoop_some_spec (keys active : List String) (cd : List (String × Nat))
    (ptr : Nat) (rem : Nat) : ∀ i k p',
    selectKeyLoop keys active cd ptr i rem = some (k, p') →
    ∃ d, d < rem ∧
      probe keys ptr (i + d) = some k ∧
      isEligible active cd k = true ∧
      p' = ((ptr + (i + d)) % keys.length + 1) % keys.length ∧
      ∀ j, j < d → ∀ k₀, probe keys ptr (i + j) = some k₀ →
        isEligible active cd k₀ = false := by
  induction rem with
  | zero => intro i k p' h; simp [selectKeyLoop] at h
  | succ rem ih =>
    intro i k p' h
    rw [selectKeyLoop] at h
    cases hk : keys[(ptr + i) % keys.length]? with
    | none => rw [hk] at h; exact absurd h (by simp)
    | some k0 =>
      rw [hk] at h
      simp only [] at h
      by_cases he : isEligible active cd k0 = true
      · rw [if_pos he] at h
        obtain ⟨hk0, hp'⟩ : k0 = k ∧ ((ptr + i) % keys.length + 1) % keys.length = p' := by
          simpa using h
        subst hk0
        refine ⟨0, Nat.succ_pos rem, ?_, he, ?_, ?_⟩
        · simpa [probe] using hk
        · simp only [Nat.add_zero]; exact hp'.symm
        · intro j hj; exact absurd hj (Nat.not_lt_zero j)
      · rw [if_neg he] at h
        obtain ⟨d, hd, hpk, helig, hp', hprev⟩ := ih (i + 1) k p' h
        have harith : i + 1 + d = i + (d + 1) := by omega
        rw [harith] at hpk hp'
        refine ⟨d + 1, by omega, hpk, helig, hp', ?_⟩
        intro j hj k₀ hk₀
        cases j with
        | zero =>
          have : k₀ = k0 := by
            have := hk₀
            simp only [probe, Nat.add_zero] at this
            rw [hk] at this
            exact (Option.some_inj.mp this).symm
          rw [this]
          simpa using he
        | succ j =>
          have harith2 : i + (j + 1) = i + 1 + j := by omega
          rw [harith2] at hk₀
          exact hprev j (by omega) k₀ hk₀

theorem selectKeyLoop_none_spec (keys active : List String) (cd : List (String × Nat))
    (ptr : Nat) (rem : Nat) : ∀ i,
    selectKeyLoop keys active cd ptr i rem = none →
    ∀ j, j < rem → ∀ k₀, probe keys ptr (i + j) = some k₀ →
      isEligible active cd k₀ = false := by
  induction rem with
  | zero => intro i _ j hj; omega
  | succ rem ih =>
    intro i h j hj k₀ hk₀
    rw [selectKeyLoop] at h
    cases hk : keys[(ptr + i) % keys.length]? with
    | none =>
      have hn : keys.length = 0 := by
        by_contra hne
        have hlt : (ptr + i) % keys.length < keys.length :=
          Nat.mod_lt _ (Nat.pos_of_ne_zero hne)
        rw [List.getElem?_eq_getElem hlt] at hk
        exact absurd hk (by simp)
      have : probe keys ptr (i + j) = none := by
        have : keys = [] := List.length_eq_zero.mp hn
        simp [probe, this]
      rw [this] at hk₀
      exact absurd hk₀ (by simp)
    | some k0 =>
      rw [hk] at h
      simp only [] at h
      by_cases he : isEligible active cd k0 = true
      · rw [if_pos he] at h; exact absurd h (by simp)
      · rw [if_neg he] at h
        cases j with
        | zero =>
          have : k₀ = k0 := by
            have := hk₀
            simp only [probe, Nat.add_zero] at this
            rw [hk] at this
            exact (Option.some_inj.mp this).symm
          rw [this]
          simpa using he
        | succ j =>
          have harith : i + (j + 1) = i + 1 + j := by omega
          rw [harith] at hk₀
          exact ih (i + 1) h j (by omega) k₀ hk₀

/-- If a cycle hands out a key, the key sits at the first eligible probe
position past the rotation pointer, all earlier probes of the cycle were
ineligible, and the pointer advances to just past the selected index. -/
theorem selectKey_some_spec (keys active : List String) (cd : List (String × Nat))
    (ptr : Nat) (k : String) (p' : Nat)
    (h : selectKey keys active cd ptr = some (k, p')) :
    ∃ d, d < keys.length ∧
      probe keys ptr d = some k ∧
      isEligible active cd k = true ∧
      p' = ((ptr + d) % keys.length + 1) % keys.length ∧
      ∀ j, j < d → ∀ k₀, probe keys ptr j = some k₀ →
        isEligible active cd k₀ = false := by
  have := selectKeyLoop_some_spec keys active cd ptr keys.length 0 k p' h
  simpa using this

/-- If the cycle hands out nothing, no probe of the cycle was eligible. -/
theorem selectKey_none_spec (keys active : List String) (cd : List (String × Nat))
    (ptr : Nat) (h : selectKey keys active cd ptr = none) :
    ∀ j, j < keys.length → ∀ k₀, probe keys ptr j = some k₀ →
      isEligible active cd k₀ = false := by
  have := selectKeyLoop_none_spec keys active cd ptr keys.length 0 h
  simpa using this

/-- A selected key is eligible: it is neither busy nor in cooldown. -/
theorem selectKey_eligible {keys active : List String} {cd : List (String × Nat)}
    {ptr : Nat} {k : String} {p' : Nat}
    (h : selectKey keys active cd ptr = some (k, p')) :
    k ∉ active ∧ ∀ p ∈ cd, p.1 ≠ k := by
  obtain ⟨d, _, _, helig, _, _⟩ := selectKey_some_spec keys active cd ptr k p' h
  exact (isEligible_iff active cd k).mp helig

/-! ### Run invariants -/

/-- Worker w is awaiting the generation call for item fid holding key k. -/
def flightAt (s : SchedState) (w : Nat) (fid k : String) : Prop :=
  s.workers[w]? = some (.inFlight fid k)

/-- Some worker is awaiting the generation call for item fid. -/
def hasFlight (s : SchedState) (fid : String) : Prop :=
  ∃ w k, flightAt s w fid k

theorem getElem?_set_of_some {α : Type} {l : List α} {w : Nat} {pc : α}
    (hw : l[w]? = some pc) (pc' : α) (w' : Nat) :
    (l.set w pc')[w']? = if w = w' then some pc' else l[w']? := by
  have hlt : w < l.length := by
    rcases List.getElem?_eq_some.mp hw with ⟨h, _⟩
    exact h
  rw [List.getElem?_set]
  by_cases h : w = w'
  · subst h; simp [hlt]
  · simp [h]

theorem countP_set_eq {α : Type} (p : α → Bool) (l : List α) (w : Nat) (a b : α)
    (hw : l[w]? = some a) :
    (l.set w b).countP p + (if p a then 1 else 0) = l.countP p + (if p b then 1 else 0) := by
  induction l generalizing w with
  | nil => simp at hw
  | cons x xs ih =>
    cases w with
    | zero =>
      have hx : x = a := by simpa using hw
      subst hx
      simp only [List.set_cons_zero, List.countP_cons]
      omega
    | succ w =>
      have hw' : xs[w]? = some a := by simpa using hw
      simp only [List.set_cons_succ, List.countP_cons]
      have := ih w hw'
      omega

theorem setStatus_map_id (files : List FileItem) (id : String) (st : ProcessingStatus) :
    (setStatus files id st).map FileItem.id = files.map FileItem.id := by
  unfold setStatus
  rw [List.map_map]
  apply List.map_congr_left
  intro f _
  by_cases h : f.id = id <;> simp [h]

theorem setFailedStatus_map_id (files : List FileItem) (id err : String) :
    (setFailedStatus files id err).map FileItem.id = files.map FileItem.id := by
  unfold setFailedStatus
  rw [List.map_map]
  apply List.map_congr_left
  intro f _
  by_cases h : f.id = id <;> simp [h]

theorem resetFailed_map_id (files : List FileItem) :
    (resetFailed files).map FileItem.id = files.map FileItem.id := by
  unfold resetFailed
  rw [List.map_map]
  apply List.map_congr_left
  intro f _
  by_cases h : f.status = .failed <;> simp [h]

/-- The inductive invariant of a scheduler run: the queue holds no
duplicates and no in-flight id, distinct in-flight workers hold distinct
items and distinct keys, every in-flight key is marked busy, the busy set
has no duplicates, the in-flight counter counts the in-flight workers, file
ids are unique, an item shows Processing exactly while a worker flies it,
every Pending or Processing item is queued or in flight, a finished run has
an empty queue and no in-flight worker, and every cooldown expiry lies at
most 30 seconds in the future. -/
structure Inv (s : SchedState) : Prop where
  queue_nodup : s.queue.Nodup
  flight_queue : ∀ w fid k, flightAt s w fid k → fid ∉ s.queue
  flight_id_inj : ∀ w w' fid fid' k k', w ≠ w' → flightAt s w fid k → flightAt s w' fid' k' →
    fid ≠ fid'
  flight_key_inj : ∀ w w' fid fid' k k', w ≠ w' → flightAt s w fid k → flightAt s w' fid' k' →
    k ≠ k'
  flight_key_busy : ∀ w fid k, flightAt s w fid k → k ∈ s.activeKeys
  keys_nodup : s.activeKeys.Nodup
  worker_count : s.activeWorkers = s.workers.countP WorkerPC.isInFlight
  files_nodup : (s.files.map FileItem.id).Nodup
  proc_iff : ∀ f ∈ s.files, (f.status = .processing ↔ hasFlight s f.id)
  pend_cov : ∀ f ∈ s.files, f.status = .pending ∨ f.status = .processing →
    f.id ∈ s.queue ∨ hasFlight s f.id
  done_quiet : s.processing = false → s.queue = [] ∧ ∀ w fid k, ¬ flightAt s w fid k
  cd_bound : ∀ p ∈ s.cooldowns, p.2 ≤ s.now + 30000

theorem inv_start (keys : List String) (files0 : List FileItem) (cd0 : List (String × Nat))
    (ptr0 t0 : Nat)
    (hids : (files0.map FileItem.id).Nodup)
    (hst : ∀ f ∈ files0, f.status ≠ .processing)
    (hcd : ∀ p ∈ cd0, p.2 ≤ t0 + 30000) :
    Inv (startState keys files0 cd0 ptr0 t0) := by
  have hwpc : ∀ (w : Nat) (pc : WorkerPC),
      (startState keys files0 cd0 ptr0 t0).workers[w]? = some pc → pc = .start := by
    intro w pc h
    have := List.getElem?_mem h
    simp only [startState] at this
    exact ((List.mem_replicate.mp this).2)
  have hnoflight : ∀ w fid k, ¬ flightAt (startState keys files0 cd0 ptr0 t0) w fid k := by
    intro w fid k h
    have := hwpc w (.inFlight fid k) h
    exact absurd this (by simp)
  refine ⟨?_, ?_, ?_, ?_, ?_, ?_, ?_, ?_, ?_, ?_, ?_, ?_⟩
  · show (seedQueue files0).Nodup
    have hsub : List.Sublist
        ((files0.filter (fun f => f.status = .pending || f.status = .failed)).map FileItem.id)
        (files0.map FileItem.id) :=
      List.Sublist.map _ (List.filter_sublist files0)
    exact hids.sublist hsub
  · intro w fid k h
    exact absurd h (hnoflight w fid k)
  · intro w w' fid fid' k k' _ h
    exact absurd h (hnoflight w fid k)
  · intro w w' fid fid' k k' _ h
    exact absurd h (hnoflight w fid k)
  · intro w fid k h
    exact absurd h (hnoflight w fid k)
  · show List.Nodup []
    exact List.nodup_nil
  · show 0 = List.countP _ _
    symm
    rw [List.countP_eq_zero]
    intro pc hpc
    have := (List.mem_replicate.mp hpc).2
    simp [this, WorkerPC.isInFlight]
  · show ((resetFailed files0).map FileItem.id).Nodup
    rw [resetFailed_map_id]
    exact hids
  · intro f hf
    constructor
    · intro hp
      exfalso
      simp only [startState, resetFailed, List.mem_map] at hf
      obtain ⟨f0, hf0, rfl⟩ := hf
      by_cases hfail : f0.status = .failed
      · rw [if_pos hfail] at hp
        exact absurd hp (by simp)
      · rw [if_neg hfail] at hp
        exact absurd hp (hst f0 hf0)
    · intro hfl
      exfalso
      obtain ⟨w, k, hw⟩ := hfl
      exact hnoflight w f.id k hw
  · intro f hf hps
    left
    simp only [startState, resetFailed, List.mem_map] at hf
    obtain ⟨f0, hf0, rfl⟩ := hf
    show _ ∈ seedQueue files0
    simp only [seedQueue, List.mem_map]
    refine ⟨f0, List.mem_filter.mpr ⟨hf0, ?_⟩, ?_⟩
    · by_cases hfail : f0.status = .failed
      · simp [hfail]
      · rw [if_neg hfail] at hps
        rcases hps with hp | hp
        · simp [hp]
        · exact absurd hp (hst f0 hf0)
    · by_cases hfail : f0.status = .failed <;> simp [hfail]
  · intro h
    exact absurd h (by simp [startState])
  · intro p hp
    exact hcd p hp

theorem flight_set_iff {ws : List WorkerPC} {w : Nat} {pcOld : WorkerPC}
    (hw : ws[w]? = some pcOld) (pcNew : WorkerPC) (w' : Nat) (fid k : String) :
    (ws.set w pcNew)[w']? = some (.inFlight fid k) ↔
      (w' = w ∧ pcNew = .inFlight fid k) ∨
      (w' ≠ w ∧ ws[w']? = some (.inFlight fid k)) := by
  rw [getElem?_set_of_some hw]
  rcases eq_or_ne w' w with h | h
  · subst h
    rw [if_pos rfl]
    simp
  · rw [if_neg (fun hh => h hh.symm)]
    simp [h]

/-- Replacing the control point of a worker that is not in flight by
another control point that is not in flight, while possibly rewriting the
pending timers and the cooldown map and advancing the clock, preserves the
run invariant. -/
theorem inv_replace_idle {s : SchedState} {w t : Nat} {pcOld pcNew : WorkerPC}
    (hw : s.workers[w]? = some pcOld)
    (hOld : pcOld.isInFlight = false) (hNew : pcNew.isInFlight = false)
    (ht : s.now ≤ t)
    (pcs : List Nat) (cds : List (String × Nat)) (hcds : ∀ p ∈ cds, p.2 ≤ t + 30000)
    (inv : Inv s) :
    Inv { s with workers := s.workers.set w pcNew, pendingChecks := pcs,
                 cooldowns := cds, now := t } := by
  have hnotfl : ∀ fid k, pcNew ≠ .inFlight fid k := by
    intro fid k h
    rw [h] at hNew
    exact absurd hNew (by simp [WorkerPC.isInFlight])
  have hfl : ∀ w' fid k,
      flightAt { s with workers := s.workers.set w pcNew, pendingChecks := pcs,
                        cooldowns := cds, now := t } w' fid k ↔
      (w' ≠ w ∧ flightAt s w' fid k) := by
    intro w' fid k
    show (s.workers.set w pcNew)[w']? = some (.inFlight fid k) ↔ _
    rw [flight_set_iff hw]
    constructor
    · rintro (⟨_, hnew⟩ | h)
      · exact absurd hnew (hnotfl fid k)
      · exact h
    · intro h
      exact Or.inr h
  have hhf : ∀ fid,
      hasFlight { s with workers := s.workers.set w pcNew, pendingChecks := pcs,
                         cooldowns := cds, now := t } fid ↔ hasFlight s fid := by
    intro fid
    constructor
    · rintro ⟨w', k, hw'⟩
      exact ⟨w', k, ((hfl w' fid k).mp hw').2⟩
    · rintro ⟨w', k, hw'⟩
      rcases eq_or_ne w' w with rfl | hne
      · exfalso
        have hpc : pcOld = .inFlight fid k := Option.some_inj.mp (hw.symm.trans hw')
        rw [hpc] at hOld
        exact absurd hOld (by simp [WorkerPC.isInFlight])
      · exact ⟨w', k, (hfl w' fid k).mpr ⟨hne, hw'⟩⟩
  refine ⟨inv.queue_nodup, ?_, ?_, ?_, ?_, inv.keys_nodup, ?_, inv.files_nodup, ?_, ?_, ?_, ?_⟩
  · intro w' fid k h
    exact inv.flight_queue w' fid k ((hfl w' fid k).mp h).2
  · intro w1 w2 fid fid' k k' hne h1 h2
    exact inv.flight_id_inj w1 w2 fid fid' k k' hne
      ((hfl w1 fid k).mp h1).2 ((hfl w2 fid' k').mp h2).2
  · intro w1 w2 fid fid' k k' hne h1 h2
    exact inv.flight_key_inj w1 w2 fid fid' k k' hne
      ((hfl w1 fid k).mp h1).2 ((hfl w2 fid' k').mp h2).2
  · intro w' fid k h
    exact inv.flight_key_busy w' fid k ((hfl w' fid k).mp h).2
  · show s.activeWorkers = (s.workers.set w pcNew).countP WorkerPC.isInFlight
    have := countP_set_eq WorkerPC.isInFlight s.workers w pcOld pcNew hw
    rw [hOld, hNew] at this
    simp only [if_neg (by simp : ¬ (false = true))] at this
    rw [inv.worker_count]
    omega
  · intro f hf
    rw [hhf f.id]
    exact inv.proc_iff f hf
  · intro f hf hps
    rcases inv.pend_cov f hf hps with h | h
    · exact Or.inl h
    · exact Or.inr ((hhf f.id).mpr h)
  · intro hp
    obtain ⟨hq, hnf⟩ := inv.done_quiet hp
    refine ⟨hq, ?_⟩
    intro w' fid k h
    exact hnf w' fid k ((hfl w' fid k).mp h).2
  · exact hcds

theorem inv_gotKey {keys : List String} {s : SchedState} {w t : Nat} {fid : String}
    {rest : List String} {k : String} {ptr' : Nat}
    (hw : s.workers[w]? = some .start)
    (hp : s.processing = true)
    (hq : s.queue = fid :: rest)
    (hsel : selectKey keys s.activeKeys (purgeCooldowns t s.cooldowns) s.nextKeyIdx
      = some (k, ptr'))
    (ht : s.now ≤ t)
    (inv : Inv s) :
    Inv (gotKeyUpdate s w t fid rest k ptr') := by
  obtain ⟨hkact, hkcd⟩ := selectKey_eligible hsel
  have hqnodup := inv.queue_nodup
  rw [hq] at hqnodup
  have hfid_rest : fid ∉ rest := (List.nodup_cons.mp hqnodup).1
  have hrest_nodup : rest.Nodup := (List.nodup_cons.mp hqnodup).2
  have hfidq : fid ∈ s.queue := by rw [hq]; exact List.mem_cons_self fid rest
  have hfl : ∀ w' fid' k',
      flightAt (gotKeyUpdate s w t fid rest k ptr') w' fid' k' ↔
      (w' = w ∧ fid' = fid ∧ k' = k) ∨ (w' ≠ w ∧ flightAt s w' fid' k') := by
    intro w' fid' k'
    show (s.workers.set w (.inFlight fid k))[w']? = some (.inFlight fid' k') ↔ _
    rw [flight_set_iff hw]
    constructor
    · rintro (⟨hweq, hpc⟩ | h)
      · have hfk : fid = fid' ∧ k = k' := by simpa using hpc
        exact Or.inl ⟨hweq, hfk.1.symm, hfk.2.symm⟩
      · exact Or.inr h
    · rintro (⟨hweq, hf, hk⟩ | h)
      · subst hf; subst hk
        exact Or.inl ⟨hweq, rfl⟩
      · exact Or.inr h
  refine ⟨?_, ?_, ?_, ?_, ?_, ?_, ?_, ?_, ?_, ?_, ?_, ?_⟩
  · exact hrest_nodup
  · intro w' fid' k' h
    rcases (hfl w' fid' k').mp h with ⟨_, rfl, _⟩ | ⟨hne, hold⟩
    · exact hfid_rest
    · intro hmem
      exact inv.flight_queue w' fid' k' hold (by rw [hq]; exact List.mem_cons_of_mem _ hmem)
  · intro w1 w2 fid1 fid2 k1 k2 hne h1 h2
    rcases (hfl w1 fid1 k1).mp h1 with ⟨hw1, rfl, _⟩ | ⟨hne1, hold1⟩ <;>
      rcases (hfl w2 fid2 k2).mp h2 with ⟨hw2, rfl, _⟩ | ⟨hne2, hold2⟩
    · exact absurd (hw1.trans hw2.symm) hne
    · intro heq
      exact inv.flight_queue w2 fid2 k2 hold2 (heq ▸ hfidq)
    · intro heq
      exact inv.flight_queue w1 fid1 k1 hold1 (heq.symm ▸ hfidq)
    · exact inv.flight_id_inj w1 w2 fid1 fid2 k1 k2 hne hold1 hold2
  · intro w1 w2 fid1 fid2 k1 k2 hne h1 h2
    rcases (hfl w1 fid1 k1).mp h1 with ⟨hw1, _, rfl⟩ | ⟨hne1, hold1⟩ <;>
      rcases (hfl w2 fid2 k2).mp h2 with ⟨hw2, _, rfl⟩ | ⟨hne2, hold2⟩
    · exact absurd (hw1.trans hw2.symm) hne
    · intro heq
      rw [heq] at hkact
      exact hkact (inv.flight_key_busy w2 fid2 k2 hold2)
    · intro heq
      rw [← heq] at hkact
      exact hkact (inv.flight_key_busy w1 fid1 k1 hold1)
    · exact inv.flight_key_inj w1 w2 fid1 fid2 k1 k2 hne hold1 hold2
  · intro w' fid' k' h
    rcases (hfl w' fid' k').mp h with ⟨_, _, rfl⟩ | ⟨_, hold⟩
    · exact List.mem_insert_self _ _
    · exact List.mem_insert_of_mem (inv.flight_key_busy w' fid' k' hold)
  · exact inv.keys_nodup.insert
  · show s.activeWorkers + 1 = (s.workers.set w (.inFlight fid k)).countP WorkerPC.isInFlight
    have hcnt := countP_set_eq WorkerPC.isInFlight s.workers w .start (.inFlight fid k) hw
    simp [WorkerPC.isInFlight] at hcnt
    rw [inv.worker_count]
    omega
  · show ((setStatus s.files fid .processing).map FileItem.id).Nodup
    rw [setStatus_map_id]
    exact inv.files_nodup
  · intro f hf
    simp only [gotKeyUpdate, setStatus, List.mem_map] at hf
    obtain ⟨f0, hf0, rfl⟩ := hf
    by_cases hid : f0.id = fid
    · rw [if_pos hid]
      constructor
      · intro _
        exact ⟨w, k, (hfl w f0.id k).mpr (Or.inl ⟨rfl, hid, rfl⟩)⟩
      · intro _
        rfl
    · rw [if_neg hid]
      have hiff : hasFlight (gotKeyUpdate s w t fid rest k ptr') f0.id ↔
          hasFlight s f0.id := by
        constructor
        · rintro ⟨w', k', h⟩
          rcases (hfl w' f0.id k').mp h with ⟨_, hfid', _⟩ | ⟨_, hold⟩
          · exact absurd hfid' hid
          · exact ⟨w', k', hold⟩
        · rintro ⟨w', k', h⟩
          rcases eq_or_ne w' w with rfl | hne
          · exfalso
            have : WorkerPC.start = WorkerPC.inFlight f0.id k' :=
              Option.some_inj.mp (hw.symm.trans h)
            exact absurd this (by simp)
          · exact ⟨w', k', (hfl w' f0.id k').mpr (Or.inr ⟨hne, h⟩)⟩
      rw [hiff]
      exact inv.proc_iff f0 hf0
  · intro f hf hps
    simp only [gotKeyUpdate, setStatus, List.mem_map] at hf
    obtain ⟨f0, hf0, rfl⟩ := hf
    by_cases hid : f0.id = fid
    · right
      rw [if_pos hid]
      exact ⟨w, k, (hfl w f0.id k).mpr (Or.inl ⟨rfl, hid, rfl⟩)⟩
    · rw [if_neg hid]
      rw [if_neg hid] at hps
      rcases inv.pend_cov f0 hf0 hps with hmem | ⟨w', k', h⟩
      · left
        rw [hq] at hmem
        rcases List.mem_cons.mp hmem with heq | hmem'
        · exact absurd heq hid
        · exact hmem'
      · right
        rcases eq_or_ne w' w with rfl | hne
        · exfalso
          have : WorkerPC.start = WorkerPC.inFlight f0.id k' :=
            Option.some_inj.mp (hw.symm.trans h)
          exact absurd this (by simp)
        · exact ⟨w', k', (hfl w' f0.id k').mpr (Or.inr ⟨hne, h⟩)⟩
  · intro h
    exact absurd (hp ▸ h) (by simp)
  · intro p hp'
    show p.2 ≤ t + 30000
    have hmem := ((mem_purgeCooldowns t s.cooldowns p).mp hp').1
    have := inv.cd_bound p hmem
    omega

theorem flight_unset {s : SchedState} {w : Nat} {fid k : String}
    (hw : s.workers[w]? = some (.inFlight fid k)) (w' : Nat) (fid' k' : String) :
    (s.workers.set w .start)[w']? = some (.inFlight fid' k') ↔
      (w' ≠ w ∧ flightAt s w' fid' k') := by
  rw [flight_set_iff hw]
  constructor
  · rintro (⟨_, hpc⟩ | h)
    · exact absurd hpc (by simp)
    · exact h
  · exact Or.inr

/-- The parts of the invariant proof shared by the three generation-call
outcomes: the worker leaves flight, its key leaves the busy set, the
counter drops.  The queue, files and cooldowns of the outcome state are
abstracted, constrained just enough to rebuild the invariant. -/
theorem inv_finish_generic {s : SchedState} {w t : Nat} {fid k : String}
    (hw : s.workers[w]? = some (.inFlight fid k))
    (ht : s.now ≤ t)
    (inv : Inv s)
    (q' : List String) (files' : List FileItem) (cd' : List (String × Nat))
    (pcs' : List Nat)
    (hq'_nodup : q'.Nodup)
    (hq'_sub : ∀ id, id ∈ q' → id = fid ∨ id ∈ s.queue)
    (hfiles_ids : files'.map FileItem.id = s.files.map FileItem.id)
    (hfid_noproc : ∀ f ∈ files', f.id = fid → f.status ≠ .processing)
    (hother : ∀ f ∈ files', f.id ≠ fid →
      ∃ f0 ∈ s.files, f0.id = f.id ∧ f0.status = f.status)
    (hpend : ∀ f ∈ files', f.id ≠ fid → f.status = .pending ∨ f.status = .processing →
      f.id ∈ q' ∨ (∃ f0 ∈ s.files, f0.id = f.id ∧
        (f0.status = .pending ∨ f0.status = .processing)))
    (hfidpend : ∀ f ∈ files', f.id = fid →
      f.status = .pending ∨ f.status = .processing → f.id ∈ q')
    (hq_keep : ∀ id, id ∈ s.queue → id ∈ q')
    (hcd : ∀ p ∈ cd', p.2 ≤ t + 30000) :
    Inv { s with queue := q', activeKeys := s.activeKeys.erase k,
                 cooldowns := cd', files := files',
                 activeWorkers := s.activeWorkers - 1,
                 workers := s.workers.set w .start,
                 pendingChecks := pcs', now := t } := by
  have hkbusy : k ∈ s.activeKeys := inv.flight_key_busy w fid k hw
  have hfl : ∀ (w' : Nat) (fid' k' : String),
      (s.workers.set w .start)[w']? = some (.inFlight fid' k') ↔
      (w' ≠ w ∧ flightAt s w' fid' k') := flight_unset hw
  have hflfid : ∀ w' k', w' ≠ w → flightAt s w' fid k' → False := by
    intro w' k' hne h
    exact inv.flight_id_inj w' w fid fid k' k hne h hw rfl
  refine ⟨hq'_nodup, ?_, ?_, ?_, ?_, ?_, ?_, ?_, ?_, ?_, ?_, hcd⟩
  · intro w' fid' k' h hmem
    obtain ⟨hne, hold⟩ := (hfl w' fid' k').mp h
    rcases hq'_sub fid' hmem with rfl | hmem'
    · exact hflfid w' k' hne hold
    · exact inv.flight_queue w' fid' k' hold hmem'
  · intro w1 w2 fid1 fid2 k1 k2 hne h1 h2
    obtain ⟨hne1, hold1⟩ := (hfl w1 fid1 k1).mp h1
    obtain ⟨hne2, hold2⟩ := (hfl w2 fid2 k2).mp h2
    exact inv.flight_id_inj w1 w2 fid1 fid2 k1 k2 hne hold1 hold2
  · intro w1 w2 fid1 fid2 k1 k2 hne h1 h2
    obtain ⟨hne1, hold1⟩ := (hfl w1 fid1 k1).mp h1
    obtain ⟨hne2, hold2⟩ := (hfl w2 fid2 k2).mp h2
    exact inv.flight_key_inj w1 w2 fid1 fid2 k1 k2 hne hold1 hold2
  · intro w' fid' k' h
    obtain ⟨hne, hold⟩ := (hfl w' fid' k').mp h
    have hkk : k' ≠ k := inv.flight_key_inj w' w fid' fid k' k hne hold hw
    exact (List.mem_erase_of_ne hkk).mpr (inv.flight_key_busy w' fid' k' hold)
  · exact inv.keys_nodup.erase k
  · show s.activeWorkers - 1 = (s.workers.set w .start).countP WorkerPC.isInFlight
    have hcnt := countP_set_eq WorkerPC.isInFlight s.workers w (.inFlight fid k) .start hw
    simp [WorkerPC.isInFlight] at hcnt
    rw [inv.worker_count]
    omega
  · show (files'.map FileItem.id).Nodup
    rw [hfiles_ids]
    exact inv.files_nodup
  · intro f hf
    by_cases hid : f.id = fid
    · constructor
      · intro hproc
        exact absurd hproc (hfid_noproc f hf hid)
      · rintro ⟨w', k', h⟩
        obtain ⟨hne, hold⟩ := (hfl w' f.id k').mp h
        rw [hid] at hold
        exact absurd hold (fun hc => hflfid w' k' hne hc)
    · obtain ⟨f0, hf0, hfid0, hst0⟩ := hother f hf hid
      rw [← hst0]
      have hiff := inv.proc_iff f0 hf0
      rw [hiff, hfid0]
      constructor
      · rintro ⟨w', k', h⟩
        rcases eq_or_ne w' w with rfl | hne
        · exfalso
          have : WorkerPC.inFlight fid k = WorkerPC.inFlight f.id k' :=
            Option.some_inj.mp (hw.symm.trans h)
          have : fid = f.id := by injection this
          exact hid this.symm
        · exact ⟨w', k', (hfl w' f.id k').mpr ⟨hne, h⟩⟩
      · rintro ⟨w', k', h⟩
        exact ⟨w', k', ((hfl w' f.id k').mp h).2⟩
  · intro f hf hps
    by_cases hid : f.id = fid
    · exact Or.inl (hfidpend f hf hid hps)
    · rcases hpend f hf hid hps with hmem | ⟨f0, hf0, hfid0, hps0⟩
      · exact Or.inl hmem
      · rcases inv.pend_cov f0 hf0 hps0 with hmem | ⟨w', k', h⟩
        · left
          rw [← hfid0]
          exact hq_keep f0.id hmem
        · right
          rw [hfid0] at h
          rcases eq_or_ne w' w with rfl | hne
          · exfalso
            have heq : WorkerPC.inFlight fid k = WorkerPC.inFlight f.id k' :=
              Option.some_inj.mp (hw.symm.trans h)
            have : fid = f.id := by injection heq
            exact hid this.symm
          · exact ⟨w', k', (hfl w' f.id k').mpr ⟨hne, h⟩⟩
  · intro hpf
    exact ((inv.done_quiet hpf).2 w fid k hw).elim

theorem mem_setStatus {files : List FileItem} {id : String} {st : ProcessingStatus}
    {f : FileItem} (hf : f ∈ setStatus files id st) :
    ∃ f0 ∈ files, f = if f0.id = id then { f0 with status := st } else f0 := by
  simp only [setStatus, List.mem_map] at hf
  obtain ⟨f0, h1, h2⟩ := hf
  exact ⟨f0, h1, h2.symm⟩

theorem mem_setFailedStatus {files : List FileItem} {id err : String}
    {f : FileItem} (hf : f ∈ setFailedStatus files id err) :
    ∃ f0 ∈ files,
      f = if f0.id = id then { f0 with status := .failed, error := some err } else f0 := by
  simp only [setFailedStatus, List.mem_map] at hf
  obtain ⟨f0, h1, h2⟩ := hf
  exact ⟨f0, h1, h2.symm⟩

theorem inv_finishSuccess {s : SchedState} {w t : Nat} {fid k : String}
    (hw : s.workers[w]? = some (.inFlight fid k))
    (ht : s.now ≤ t)
    (inv : Inv s) :
    Inv (successUpdate s w t fid k) := by
  refine inv_finish_generic hw ht inv s.queue (setStatus s.files fid .completed)
    s.cooldowns s.pendingChecks inv.queue_nodup (fun id h => Or.inr h)
    (setStatus_map_id s.files fid .completed) ?_ ?_ ?_ ?_ (fun id h => h) ?_
  · intro f hf hid
    obtain ⟨f0, hf0, rfl⟩ := mem_setStatus hf
    by_cases h0 : f0.id = fid
    · rw [if_pos h0]
      simp
    · rw [if_neg h0] at hid ⊢
      exact absurd hid h0
  · intro f hf hid
    obtain ⟨f0, hf0, rfl⟩ := mem_setStatus hf
    by_cases h0 : f0.id = fid
    · rw [if_pos h0] at hid
      exact absurd h0 hid
    · rw [if_neg h0]
      exact ⟨f0, hf0, rfl, rfl⟩
  · intro f hf hid hps
    obtain ⟨f0, hf0, rfl⟩ := mem_setStatus hf
    by_cases h0 : f0.id = fid
    · rw [if_pos h0] at hid
      exact absurd h0 hid
    · rw [if_neg h0] at hps ⊢
      exact Or.inr ⟨f0, hf0, rfl, hps⟩
  · intro f hf hid hps
    obtain ⟨f0, hf0, rfl⟩ := mem_setStatus hf
    by_cases h0 : f0.id = fid
    · rw [if_pos h0] at hps
      rcases hps with h | h <;> exact absurd h (by simp)
    · rw [if_neg h0] at hid
      exact absurd hid h0
  · intro p hp
    have := inv.cd_bound p hp
    omega

theorem inv_finishKeyError {s : SchedState} {w t : Nat} {fid k : String}
    (hw : s.workers[w]? = some (.inFlight fid k))
    (ht : s.now ≤ t)
    (inv : Inv s) :
    Inv (keyErrorUpdate s w t fid k) := by
  have hfidq : fid ∉ s.queue := inv.flight_queue w fid k hw
  refine inv_finish_generic hw ht inv (s.queue ++ [fid]) (setStatus s.files fid .pending)
    (setCooldown s.cooldowns k (t + 30000)) s.pendingChecks ?_ ?_
    (setStatus_map_id s.files fid .pending) ?_ ?_ ?_ ?_
    (fun id h => List.mem_append_left _ h) ?_
  · rw [List.nodup_append]
    refine ⟨inv.queue_nodup, List.nodup_singleton fid, ?_⟩
    intro a ha hb
    rw [List.mem_singleton.mp hb] at ha
    exact hfidq ha
  · intro id h
    rcases List.mem_append.mp h with h' | h'
    · exact Or.inr h'
    · exact Or.inl (List.mem_singleton.mp h')
  · intro f hf hid
    obtain ⟨f0, hf0, rfl⟩ := mem_setStatus hf
    by_cases h0 : f0.id = fid
    · rw [if_pos h0]
      simp
    · rw [if_neg h0] at hid ⊢
      exact absurd hid h0
  · intro f hf hid
    obtain ⟨f0, hf0, rfl⟩ := mem_setStatus hf
    by_cases h0 : f0.id = fid
    · rw [if_pos h0] at hid
      exact absurd h0 hid
    · rw [if_neg h0]
      exact ⟨f0, hf0, rfl, rfl⟩
  · intro f hf hid hps
    obtain ⟨f0, hf0, rfl⟩ := mem_setStatus hf
    by_cases h0 : f0.id = fid
    · rw [if_pos h0] at hid
      exact absurd h0 hid
    · rw [if_neg h0] at hps ⊢
      exact Or.inr ⟨f0, hf0, rfl, hps⟩
  · intro f hf hid _
    rw [hid]
    exact List.mem_append_right _ (List.mem_singleton.mpr rfl)
  · intro p hp
    rcases List.mem_cons.mp hp with h | h
    · rw [h]
    · have hmem : p ∈ s.cooldowns := (List.mem_filter.mp h).1
      have := inv.cd_bound p hmem
      omega

theorem inv_finishPermError {s : SchedState} {w t : Nat} {fid k e : String}
    (hw : s.workers[w]? = some (.inFlight fid k))
    (ht : s.now ≤ t)
    (inv : Inv s) :
    Inv (permErrorUpdate s w t fid k e) := by
  refine inv_finish_generic hw ht inv s.queue (setFailedStatus s.files fid e)
    s.cooldowns s.pendingChecks inv.queue_nodup (fun id h => Or.inr h)
    (setFailedStatus_map_id s.files fid e) ?_ ?_ ?_ ?_ (fun id h => h) ?_
  · intro f hf hid
    obtain ⟨f0, hf0, rfl⟩ := mem_setFailedStatus hf
    by_cases h0 : f0.id = fid
    · rw [if_pos h0]
      simp
    · rw [if_neg h0] at hid ⊢
      exact absurd hid h0
  · intro f hf hid
    obtain ⟨f0, hf0, rfl⟩ := mem_setFailedStatus hf
    by_cases h0 : f0.id = fid
    · rw [if_pos h0] at hid
      exact absurd h0 hid
    · rw [if_neg h0]
      exact ⟨f0, hf0, rfl, rfl⟩
  · intro f hf hid hps
    obtain ⟨f0, hf0, rfl⟩ := mem_setFailedStatus hf
    by_cases h0 : f0.id = fid
    · rw [if_pos h0] at hid
      exact absurd h0 hid
    · rw [if_neg h0] at hps ⊢
      exact Or.inr ⟨f0, hf0, rfl, hps⟩
  · intro f hf hid hps
    obtain ⟨f0, hf0, rfl⟩ := mem_setFailedStatus hf
    by_cases h0 : f0.id = fid
    · rw [if_pos h0] at hps
      rcases hps with h | h <;> exact absurd h (by simp)
    · rw [if_neg h0] at hid
      exact absurd hid h0
  · intro p hp
    have := inv.cd_bound p hp
    omega

/-- Every atomic step preserves the run invariant. -/
theorem inv_step {keys : List String} {s s' : SchedState}
    (inv : Inv s) (h : Step keys s s') : Inv s' := by
  cases h with
  | deadWorker w t hw hp ht =>
    exact inv_replace_idle hw (by rfl) (by rfl) ht s.pendingChecks s.cooldowns
      (fun p hp' => by have := inv.cd_bound p hp'; omega) inv
  | emptyQueue w t hw hp hq ht =>
    exact inv_replace_idle hw (by rfl) (by rfl) ht _ s.cooldowns
      (fun p hp' => by have := inv.cd_bound p hp'; omega) inv
  | noKey w t fid rest hw hp hq hsel ht =>
    exact inv_replace_idle hw (by rfl) (by rfl) ht s.pendingChecks (purgeCooldowns t s.cooldowns)
      (fun p hp' => by
        have := inv.cd_bound p ((mem_purgeCooldowns t s.cooldowns p).mp hp').1
        omega) inv
  | gotKey w t fid rest k ptr' hw hp hq hsel ht =>
    exact inv_gotKey hw hp hq hsel ht inv
  | finishSuccess w t fid k hw ht =>
    exact inv_finishSuccess hw ht inv
  | finishKeyError w t fid k e hw he ht =>
    exact inv_finishKeyError hw ht inv
  | finishPermError w t fid k e hw he ht =>
    exact inv_finishPermError hw ht inv
  | wakeWorker w t wk hw hwk ht =>
    exact inv_replace_idle hw (by rfl) (by rfl) ht s.pendingChecks s.cooldowns
      (fun p hp' => by have := inv.cd_bound p hp'; omega) inv
  | timerFire t c hc htc ht =>
    refine ⟨inv.queue_nodup, ?_, ?_, ?_, ?_, inv.keys_nodup, inv.worker_count,
      inv.files_nodup, ?_, ?_, ?_, ?_⟩
    · exact inv.flight_queue
    · exact inv.flight_id_inj
    · exact inv.flight_key_inj
    · exact inv.flight_key_busy
    · intro f hf
      exact inv.proc_iff f hf
    · intro f hf hps
      exact inv.pend_cov f hf hps
    · intro hpf
      by_cases hg : s.queue = [] ∧ s.activeWorkers = 0
      · refine ⟨hg.1, ?_⟩
        intro w fid k hfl
        have hcnt : s.workers.countP WorkerPC.isInFlight = 0 := by
          rw [← inv.worker_count]
          exact hg.2
        have hall := List.countP_eq_zero.mp hcnt
        have hmem := List.getElem?_mem hfl
        have := hall _ hmem
        simp [WorkerPC.isInFlight] at this
      · have : ({ s with
            pendingChecks := s.pendingChecks.erase c
            processing := if s.queue = [] ∧ s.activeWorkers = 0 then false else s.processing
            now := t } : SchedState).processing = s.processing := by
          simp only [if_neg hg]
        rw [this] at hpf
        obtain ⟨hq, hnf⟩ := inv.done_quiet hpf
        exact ⟨hq, hnf⟩
    · intro p hp'
      show p.2 ≤ t + 30000
      have := inv.cd_bound p hp'
      omega

/-- The clock never runs backwards across a step. -/
theorem step_now_mono {keys : List String} {s s' : SchedState} (h : Step keys s s') :
    s.now ≤ s'.now := by
  cases h with
  | deadWorker w t hw hp ht => exact ht
  | emptyQueue w t hw hp hq ht => exact ht
  | noKey w t fid rest hw hp hq hsel ht => exact ht
  | gotKey w t fid rest k ptr' hw hp hq hsel ht => exact ht
  | finishSuccess w t fid k hw ht => exact ht
  | finishKeyError w t fid k e hw he ht => exact ht
  | finishPermError w t fid k e hw he ht => exact ht
  | wakeWorker w t wk hw hwk ht => exact ht
  | timerFire t c hc htc ht => exact ht

/-- The invariant carries along any number of steps. -/
theorem inv_of_steps {keys : List String} {s s' : SchedState} (inv : Inv s)
    (h : Relation.ReflTransGen (Step keys) s s') : Inv s' := by
  induction h with
  | refl => exact inv
  | tail hab hbc ih => exact inv_step ih hbc

/-- Every reachable state of a well-formed run satisfies the invariant. -/
theorem inv_of_reachable {keys : List String} {files0 : List FileItem}
    {cd0 : List (String × Nat)} {ptr0 t0 : Nat} {s : SchedState}
    (hids : (files0.map FileItem.id).Nodup)
    (hst : ∀ f ∈ files0, f.status ≠ .processing)
    (hcd : ∀ p ∈ cd0, p.2 ≤ t0 + 30000)
    (hreach : Reachable keys files0 cd0 ptr0 t0 s) : Inv s :=
  inv_of_steps (inv_start keys files0 cd0 ptr0 t0 hids hst hcd) hreach

/-! ### Cooldown persistence -/

theorem find?_filter_of {α : Type} (p q : α → Bool) (l : List α) (x : α)
    (hf : l.find? p = some x) (hq : q x = true) :
    (l.filter q).find? p = some x := by
  induction l with
  | nil => simp at hf
  | cons a as ih =>
    by_cases hpa : p a = true
    · rw [List.find?_cons_of_pos as hpa] at hf
      have hax : a = x := by simpa using hf
      subst hax
      rw [List.filter_cons_of_pos hq]
      exact List.find?_cons_of_pos _ hpa
    · rw [List.find?_cons_of_neg as (by simpa using hpa)] at hf
      by_cases hqa : q a = true
      · rw [List.filter_cons_of_pos hqa, List.find?_cons_of_neg _ (by simpa using hpa)]
        exact ih hf
      · rw [List.filter_cons_of_neg (by simpa using hqa)]
        exact ih hf

theorem lookupCooldown_some {cd : List (String × Nat)} {k : String} {e : Nat}
    (h : lookupCooldown cd k = some e) :
    ∃ pr, cd.find? (fun p => p.1 = k) = some pr ∧ pr.1 = k ∧ pr.2 = e ∧ pr ∈ cd := by
  unfold lookupCooldown at h
  cases hf : cd.find? (fun p => p.1 = k) with
  | none => rw [hf] at h; exact absurd h (by simp)
  | some pr =>
    rw [hf] at h
    have h2 : pr.2 = e := by simpa using h
    have h1 : pr.1 = k := by
      have := List.find?_some hf
      simpa using this
    exact ⟨pr, rfl, h1, h2, List.mem_of_find?_eq_some hf⟩

theorem lookupCooldown_purge {cd : List (String × Nat)} {k : String} {e : Nat} (t : Nat)
    (h : lookupCooldown cd k = some e) (he : ¬ e < t) :
    lookupCooldown (purgeCooldowns t cd) k = some e := by
  obtain ⟨pr, hf, h1, h2, _⟩ := lookupCooldown_some h
  unfold lookupCooldown purgeCooldowns
  rw [find?_filter_of _ _ _ _ hf (by simp [h2, he])]
  simp [h2]

theorem lookupCooldown_setCooldown_self (cd : List (String × Nat)) (k : String) (e : Nat) :
    lookupCooldown (setCooldown cd k e) k = some e := by
  unfold lookupCooldown setCooldown
  rw [List.find?_cons_of_pos _ (by simp)]
  rfl

theorem lookupCooldown_setCooldown_other {cd : List (String × Nat)} {k k' : String}
    {e : Nat} (e' : Nat) (hne : k ≠ k')
    (h : lookupCooldown cd k = some e) :
    lookupCooldown (setCooldown cd k' e') k = some e := by
  obtain ⟨pr, hf, h1, h2, _⟩ := lookupCooldown_some h
  unfold lookupCooldown setCooldown
  rw [List.find?_cons_of_neg _ (by simp; intro hc; exact hne (by rw [← hc]))]
  rw [find?_filter_of _ _ _ _ hf (by simp [h1]; intro hc; exact hne (hc ▸ rfl))]
  simp [h2]

/-- A single step never drops or shortens a cooldown entry that has not yet
expired: the entry survives, possibly with a later expiry. -/
theorem step_cooldown_persist {keys : List String} {s s' : SchedState}
    (h : Step keys s s') (inv : Inv s) {k : String} {e : Nat}
    (hl : lookupCooldown s.cooldowns k = some e)
    (hfresh : s'.now ≤ e) :
    ∃ e', e ≤ e' ∧ lookupCooldown s'.cooldowns k = some e' := by
  cases h with
  | deadWorker w t hw hp ht => exact ⟨e, le_refl e, hl⟩
  | emptyQueue w t hw hp hq ht => exact ⟨e, le_refl e, hl⟩
  | noKey w t fid rest hw hp hq hsel ht =>
    refine ⟨e, le_refl e, ?_⟩
    exact lookupCooldown_purge t hl (by simp only [noKeyUpdate] at hfresh; omega)
  | gotKey w t fid rest k0 ptr' hw hp hq hsel ht =>
    refine ⟨e, le_refl e, ?_⟩
    exact lookupCooldown_purge t hl (by simp only [gotKeyUpdate] at hfresh; omega)
  | finishSuccess w t fid k0 hw ht => exact ⟨e, le_refl e, hl⟩
  | finishKeyError w t fid k0 e0 hw he0 ht =>
    by_cases hk : k0 = k
    · subst hk
      refine ⟨t + 30000, ?_, ?_⟩
      · obtain ⟨pr, _, _, h2, hmem⟩ := lookupCooldown_some hl
        have := inv.cd_bound pr hmem
        omega
      · exact lookupCooldown_setCooldown_self s.cooldowns k0 (t + 30000)
    · exact ⟨e, le_refl e, lookupCooldown_setCooldown_other (t + 30000)
        (fun hc => hk hc.symm) hl⟩
  | finishPermError w t fid k0 e0 hw he0 ht => exact ⟨e, le_refl e, hl⟩
  | wakeWorker w t wk hw hwk ht => exact ⟨e, le_refl e, hl⟩
  | timerFire t c hc htc ht => exact ⟨e, le_refl e, hl⟩

/-- Cooldown persistence along any run segment that stays within the
entry's lifetime. -/
theorem steps_cooldown_persist {keys : List String} {s s' : SchedState}
    (h : Relation.ReflTransGen (Step keys) s s') (inv : Inv s) {k : String} {e : Nat}
    (hl : lookupCooldown s.cooldowns k = some e) :
    s'.now ≤ e → ∃ e', e ≤ e' ∧ lookupCooldown s'.cooldowns k = some e' := by
  induction h with
  | refl => exact fun _ => ⟨e, le_refl e, hl⟩
  | @tail b c hab hbc ih =>
    intro hf
    have hbn : b.now ≤ c.now := step_now_mono hbc
    obtain ⟨e1, he1, hl1⟩ := ih (le_trans hbn hf)
    have hinvb : Inv b := inv_of_steps inv hab
    obtain ⟨e2, he2, hl2⟩ := step_cooldown_persist hbc hinvb hl1 (le_trans hf he1)
    exact ⟨e2, le_trans he1 he2, hl2⟩

/-- A key with an unexpired cooldown entry is never the key handed out by a
selection scan at that time. -/
theorem select_respects_cooldown {keys active : List String} {cd : List (String × Nat)}
    {ptr t : Nat} {k : String} {e : Nat} {k₀ : String} {ptr' : Nat}
    (hmem : (k, e) ∈ cd) (hlive : ¬ e < t)
    (hsel : selectKey keys active (purgeCooldowns t cd) ptr = some (k₀, ptr')) :
    k₀ ≠ k := by
  intro hk
  subst hk
  have helig := (selectKey_eligible hsel).2
  have hkeep : (k₀, e) ∈ purgeCooldowns t cd := by
    rw [mem_purgeCooldowns]
    exact ⟨hmem, hlive⟩
  exact helig (k₀, e) hkeep rfl

/-- The processing flag only drops on a completion-timer step whose
re-check passes: empty queue, idle counter zero, and a previously scheduled
grace timer has elapsed. -/
theorem processing_flip {keys : List String} {s s' : SchedState}
    (h : Step keys s s') (hp : s.processing = true) (hp' : s'.processing = false) :
    s.queue = [] ∧ s.activeWorkers = 0 ∧ ∃ c ∈ s.pendingChecks, c ≤ s'.now := by
  cases h with
  | deadWorker w t hw hpf ht => exact absurd hpf (by simp [hp])
  | emptyQueue w t hw hpf hq ht =>
    have hps : s.processing = false := hp'
    exact absurd hps (by simp [hp])
  | noKey w t fid rest hw hpf hq hsel ht =>
    have hps : s.processing = false := hp'
    exact absurd hps (by simp [hp])
  | gotKey w t fid rest k ptr' hw hpf hq hsel ht =>
    have hps : s.processing = false := hp'
    exact absurd hps (by simp [hp])
  | finishSuccess w t fid k hw ht =>
    have hps : s.processing = false := hp'
    exact absurd hps (by simp [hp])
  | finishKeyError w t fid k e hw he ht =>
    have hps : s.processing = false := hp'
    exact absurd hps (by simp [hp])
  | finishPermError w t fid k e hw he ht =>
    have hps : s.processing = false := hp'
    exact absurd hps (by simp [hp])
  | wakeWorker w t wk hw hwk ht =>
    have hps : s.processing = false := hp'
    exact absurd hps (by simp [hp])
  | timerFire t c hc htc ht =>
    by_cases hg : s.queue = [] ∧ s.activeWorkers = 0
    · exact ⟨hg.1, hg.2, c, hc, htc⟩
    · exfalso
      have hps : (if s.queue = [] ∧ s.activeWorkers = 0 then false else s.processing)
          = false := hp'
      rw [if_neg hg] at hps
      exact absurd hps (by simp [hp])

/-- The full selectCredential operation: purge, then scan one cycle. -/
def selectCredential (keys active : List String) (cd : List (String × Nat))
    (ptr now : Nat) : Option (String × Nat) × List (String × Nat) :=
  let cd' := purgeCooldowns now cd
  (selectKey keys active cd' ptr, cd')

/-! ### The claims -/

/-- The scheduler state used to evaluate the timeout classification: one
worker awaiting the generation call for file f1 with key key1. -/
def c1State : SchedState :=
  { processing := true
    activeWorkers := 1
    queue := []
    activeKeys := ["key1"]
    cooldowns := []
    nextKeyIdx := 0
    files := [⟨"f1", .processing, none⟩]
    workers := [.inFlight "f1" "key1"]
    pendingChecks := []
    now := 0 }

/-- C1: the claim is false on the code and the code contradicts its own
intent.  The generation call's built-in 60-second timer rejects with the
message Request timed out (60s limit); its lowercased rendering contains
timed out but not the substring timeout the classifier looks for, so
isKeyError is false, the worker takes the permanent-error branch, and the
item is surfaced as a terminal Failed — not cooled down and requeued as the
claim states. -/
theorem c1_builtin_timeout_surfaces_failed :
    isKeyError builtinTimeoutMessage = false ∧
    Step ["key1"] c1State (permErrorUpdate c1State 0 5 "f1" "key1" builtinTimeoutMessage) ∧
    (permErrorUpdate c1State 0 5 "f1" "key1" builtinTimeoutMessage).files
      = [⟨"f1", .failed, some builtinTimeoutMessage⟩] ∧
    (permErrorUpdate c1State 0 5 "f1" "key1" builtinTimeoutMessage).queue = [] := by
  refine ⟨by decide, ?_, by decide, by decide⟩
  exact Step.finishPermError c1State 0 5 "f1" "key1" builtinTimeoutMessage
    (by rfl) (by decide) (by decide)

/-- C2: in every reachable state of a run, no credential is borrowed by
two in-flight workers at once, and a key with an unexpired cooldown entry
is never the one handed out by the round-robin selection, busy or not. -/
theorem c2_credential_exclusivity
    (keys : List String) (files0 : List FileItem) (cd0 : List (String × Nat))
    (ptr0 t0 : Nat) (s : SchedState)
    (hids : (files0.map FileItem.id).Nodup)
    (hst : ∀ f ∈ files0, f.status ≠ .processing)
    (hcd : ∀ p ∈ cd0, p.2 ≤ t0 + 30000)
    (hreach : Reachable keys files0 cd0 ptr0 t0 s) :
    (∀ w w' fid fid' k, w ≠ w' → flightAt s w fid k → flightAt s w' fid' k → False) ∧
    (∀ t k e k₀ ptr', (k, e) ∈ s.cooldowns → t ≤ e →
      selectKey keys s.activeKeys (purgeCooldowns t s.cooldowns) s.nextKeyIdx
        = some (k₀, ptr') → k₀ ≠ k) := by
  have inv := inv_of_reachable hids hst hcd hreach
  constructor
  · intro w w' fid fid' k hne h1 h2
    exact inv.flight_key_inj w w' fid fid' k k hne h1 h2 rfl
  · intro t k e k₀ ptr' hmem hlive hsel
    exact select_respects_cooldown hmem (by omega) hsel

/-- Closed instance of C2 at the start state of a one-file, one-key run. -/
theorem c2_credential_exclusivity_witness :
    (∀ w w' fid fid' k, w ≠ w' →
      flightAt (startState ["k1"] [⟨"f1", .pending, none⟩] [] 0 0) w fid k →
      flightAt (startState ["k1"] [⟨"f1", .pending, none⟩] [] 0 0) w' fid' k → False) ∧
    (∀ t k e k₀ ptr',
      (k, e) ∈ (startState ["k1"] [⟨"f1", .pending, none⟩] [] 0 0).cooldowns → t ≤ e →
      selectKey ["k1"] (startState ["k1"] [⟨"f1", .pending, none⟩] [] 0 0).activeKeys
        (purgeCooldowns t (startState ["k1"] [⟨"f1", .pending, none⟩] [] 0 0).cooldowns)
        (startState ["k1"] [⟨"f1", .pending, none⟩] [] 0 0).nextKeyIdx
        = some (k₀, ptr') → k₀ ≠ k) :=
  c2_credential_exclusivity ["k1"] [⟨"f1", .pending, none⟩] [] 0 0
    (startState ["k1"] [⟨"f1", .pending, none⟩] [] 0 0)
    (by decide) (by decide) (by decide) Relation.ReflTransGen.refl

/-- C3: in every reachable state the queue holds each id at most once, and
no id in the queue is simultaneously in flight at a worker. -/
theorem c3_queue_integrity
    (keys : List String) (files0 : List FileItem) (cd0 : List (String × Nat))
    (ptr0 t0 : Nat) (s : SchedState)
    (hids : (files0.map FileItem.id).Nodup)
    (hst : ∀ f ∈ files0, f.status ≠ .processing)
    (hcd : ∀ p ∈ cd0, p.2 ≤ t0 + 30000)
    (hreach : Reachable keys files0 cd0 ptr0 t0 s) :
    s.queue.Nodup ∧ (∀ w fid k, flightAt s w fid k → fid ∉ s.queue) := by
  have inv := inv_of_reachable hids hst hcd hreach
  exact ⟨inv.queue_nodup, inv.flight_queue⟩

/-- Closed instance of C3 at the start state of a one-file, one-key run. -/
theorem c3_queue_integrity_witness :
    (startState ["k1"] [⟨"f1", .pending, none⟩] [] 0 0).queue.Nodup ∧
    (∀ w fid k, flightAt (startState ["k1"] [⟨"f1", .pending, none⟩] [] 0 0) w fid k →
      fid ∉ (startState ["k1"] [⟨"f1", .pending, none⟩] [] 0 0).queue) :=
  c3_queue_integrity ["k1"] [⟨"f1", .pending, none⟩] [] 0 0
    (startState ["k1"] [⟨"f1", .pending, none⟩] [] 0 0)
    (by decide) (by decide) (by decide) Relation.ReflTransGen.refl

/-- C4: every credential selection first purges exactly the cooldown
entries whose expiry lies strictly before the current time, then scans at
most one full cycle from the rotation pointer; a returned credential is the
first eligible probe with the pointer advanced to just past its index mod
the pool size, and nothing is returned precisely when no probe of the cycle
is eligible. -/
theorem c4_selectCredential_characterization
    (keys active : List String) (cd : List (String × Nat)) (ptr now : Nat) :
    ((selectCredential keys active cd ptr now).2 = purgeCooldowns now cd ∧
     (∀ p, p ∈ (selectCredential keys active cd ptr now).2 ↔ p ∈ cd ∧ ¬ p.2 < now)) ∧
    (∀ k p', (selectCredential keys active cd ptr now).1 = some (k, p') →
      ∃ d, d < keys.length ∧ probe keys ptr d = some k ∧
        isEligible active (purgeCooldowns now cd) k = true ∧
        p' = ((ptr + d) % keys.length + 1) % keys.length ∧
        ∀ j, j < d → ∀ k₀, probe keys ptr j = some k₀ →
          isEligible active (purgeCooldowns now cd) k₀ = false) ∧
    ((selectCredential keys active cd ptr now).1 = none ↔
      ∀ j, j < keys.length → ∀ k₀, probe keys ptr j = some k₀ →
        isEligible active (purgeCooldowns now cd) k₀ = false) := by
  refine ⟨⟨rfl, fun p => mem_purgeCooldowns now cd p⟩, ?_, ?_, ?_⟩
  · intro k p' h
    exact selectKey_some_spec keys active (purgeCooldowns now cd) ptr k p' h
  · intro h
    exact selectKey_none_spec keys active (purgeCooldowns now cd) ptr h
  · intro hall
    cases hsel : selectKey keys active (purgeCooldowns now cd) ptr with
    | none => exact hsel
    | some kp =>
      exfalso
      obtain ⟨d, hd, hprobe, helig, _, _⟩ :=
        selectKey_some_spec keys active (purgeCooldowns now cd) ptr kp.1 kp.2
          (by rw [hsel])
      rw [hall d hd kp.1 hprobe] at helig
      exact absurd helig (by simp)

/-- Closed instance of C4 with a two-key pool, one busy key and one stale
cooldown entry. -/
theorem c4_selectCredential_witness :
    ((selectCredential ["a", "b"] ["a"] [("b", 3)] 0 10).2 = purgeCooldowns 10 [("b", 3)] ∧
     (∀ p, p ∈ (selectCredential ["a", "b"] ["a"] [("b", 3)] 0 10).2 ↔
       p ∈ [("b", 3)] ∧ ¬ p.2 < 10)) ∧
    (∀ k p', (selectCredential ["a", "b"] ["a"] [("b", 3)] 0 10).1 = some (k, p') →
      ∃ d, d < (["a", "b"] : List String).length ∧ probe ["a", "b"] 0 d = some k ∧
        isEligible ["a"] (purgeCooldowns 10 [("b", 3)]) k = true ∧
        p' = ((0 + d) % (["a", "b"] : List String).length + 1) %
          (["a", "b"] : List String).length ∧
        ∀ j, j < d → ∀ k₀, probe ["a", "b"] 0 j = some k₀ →
          isEligible ["a"] (purgeCooldowns 10 [("b", 3)]) k₀ = false) ∧
    ((selectCredential ["a", "b"] ["a"] [("b", 3)] 0 10).1 = none ↔
      ∀ j, j < (["a", "b"] : List String).length → ∀ k₀,
        probe ["a", "b"] 0 j = some k₀ →
        isEligible ["a"] (purgeCooldowns 10 [("b", 3)]) k₀ = false) :=
  c4_selectCredential_characterization ["a", "b"] ["a"] [("b", 3)] 0 10

/-- C5: on a credential-exhaustion failure the worker appends the item to
the back of the queue, where it then occurs exactly once, resets its status
to Pending, records a cooldown expiry 30 seconds past the failure
timestamp for the triggering key, and no selection scan occurring at any
instant up to that expiry — in this or any later reachable state — ever
hands that key out again. -/
theorem c5_keyError_requeue_and_cooldown
    (keys : List String) (files0 : List FileItem) (cd0 : List (String × Nat))
    (ptr0 t0 : Nat) (s : SchedState)
    (hids : (files0.map FileItem.id).Nodup)
    (hst : ∀ f ∈ files0, f.status ≠ .processing)
    (hcd : ∀ p ∈ cd0, p.2 ≤ t0 + 30000)
    (hreach : Reachable keys files0 cd0 ptr0 t0 s)
    (w t : Nat) (fid k e : String)
    (hw : flightAt s w fid k)
    (he : isKeyError e = true)
    (ht : s.now ≤ t) :
    Step keys s (keyErrorUpdate s w t fid k) ∧
    (keyErrorUpdate s w t fid k).queue = s.queue ++ [fid] ∧
    (keyErrorUpdate s w t fid k).queue.count fid = 1 ∧
    (∀ f ∈ (keyErrorUpdate s w t fid k).files, f.id = fid → f.status = .pending) ∧
    lookupCooldown (keyErrorUpdate s w t fid k).cooldowns k = some (t + 30000) ∧
    (∀ s', Relation.ReflTransGen (Step keys) (keyErrorUpdate s w t fid k) s' →
      ∀ t' k₀ ptr', s'.now ≤ t' → t' ≤ t + 30000 →
        selectKey keys s'.activeKeys (purgeCooldowns t' s'.cooldowns) s'.nextKeyIdx
          = some (k₀, ptr') → k₀ ≠ k) := by
  have inv := inv_of_reachable hids hst hcd hreach
  have hfidq : fid ∉ s.queue := inv.flight_queue w fid k hw
  refine ⟨Step.finishKeyError s w t fid k e hw he ht, rfl, ?_, ?_, ?_, ?_⟩
  · show (s.queue ++ [fid]).count fid = 1
    rw [List.count_append, List.count_eq_zero_of_not_mem hfidq, List.count_singleton_self]
  · intro f hf hid
    obtain ⟨f0, hf0, rfl⟩ := mem_setStatus hf
    by_cases h0 : f0.id = fid
    · rw [if_pos h0]
    · rw [if_neg h0] at hid
      exact absurd hid h0
  · exact lookupCooldown_setCooldown_self s.cooldowns k (t + 30000)
  · intro s' hsteps t' k₀ ptr' hnow hlt hsel
    have hinv' : Inv (keyErrorUpdate s w t fid k) := inv_finishKeyError hw ht inv
    have hl : lookupCooldown (keyErrorUpdate s w t fid k).cooldowns k = some (t + 30000) :=
      lookupCooldown_setCooldown_self s.cooldowns k (t + 30000)
    obtain ⟨e', he', hl'⟩ := steps_cooldown_persist hsteps hinv' hl (by omega)
    obtain ⟨pr, hfind, h1, h2, hmem⟩ := lookupCooldown_some hl'
    have hmem' : (k, e') ∈ s'.cooldowns := by
      have hpr : pr = (k, e') := Prod.ext h1 h2
      rw [← hpr]
      exact hmem
    exact select_respects_cooldown hmem' (by omega) hsel

/-- The one-file, one-key start state used by several witnesses. -/
def w5Start : SchedState := startState ["k1"] [⟨"f1", .pending, none⟩] [] 0 0

/-- The state after worker 0 borrowed the key and popped the file. -/
def w5Mid : SchedState := gotKeyUpdate w5Start 0 0 "f1" [] "k1" 0

/-- Closed instance of C5: the 429 failure at time 7 of the one-file run. -/
theorem c5_keyError_requeue_and_cooldown_witness :
    Step ["k1"] w5Mid (keyErrorUpdate w5Mid 0 7 "f1" "k1") ∧
    (keyErrorUpdate w5Mid 0 7 "f1" "k1").queue = w5Mid.queue ++ ["f1"] ∧
    (keyErrorUpdate w5Mid 0 7 "f1" "k1").queue.count "f1" = 1 ∧
    (∀ f ∈ (keyErrorUpdate w5Mid 0 7 "f1" "k1").files, f.id = "f1" →
      f.status = .pending) ∧
    lookupCooldown (keyErrorUpdate w5Mid 0 7 "f1" "k1").cooldowns "k1" = some (7 + 30000) ∧
    (∀ s', Relation.ReflTransGen (Step ["k1"]) (keyErrorUpdate w5Mid 0 7 "f1" "k1") s' →
      ∀ t' k₀ ptr', s'.now ≤ t' → t' ≤ 7 + 30000 →
        selectKey ["k1"] s'.activeKeys (purgeCooldowns t' s'.cooldowns) s'.nextKeyIdx
          = some (k₀, ptr') → k₀ ≠ "k1") :=
  c5_keyError_requeue_and_cooldown ["k1"] [⟨"f1", .pending, none⟩] [] 0 0 w5Mid
    (by decide) (by decide) (by decide)
    (Relation.ReflTransGen.single
      (Step.gotKey w5Start 0 0 "f1" [] "k1" 0 (by decide) (by decide) (by decide)
        (by decide) (by decide)))
    0 7 "f1" "k1" "429" (by rfl) (by decide) (by decide)

/-- C6: when a popped item meets an empty credential pool, the worker puts
the id back at the front leaving the queue as it was, changes no file
status or error and no counter, parks itself until one second later, and
the wake-up transition replays the same loop iteration from the top. -/
theorem c6_throttle_wait
    (keys : List String) (s : SchedState) (w t : Nat)
    (fid : String) (rest : List String)
    (hw : s.workers[w]? = some .start)
    (hp : s.processing = true)
    (hq : s.queue = fid :: rest)
    (hsel : selectKey keys s.activeKeys (purgeCooldowns t s.cooldowns) s.nextKeyIdx = none)
    (ht : s.now ≤ t) :
    Step keys s (noKeyUpdate s w t) ∧
    (noKeyUpdate s w t).queue = fid :: rest ∧
    (noKeyUpdate s w t).files = s.files ∧
    (noKeyUpdate s w t).activeWorkers = s.activeWorkers ∧
    (noKeyUpdate s w t).workers[w]? = some (.throttled (t + 1000)) ∧
    (∀ t', t + 1000 ≤ t' →
      Step keys (noKeyUpdate s w t)
        { noKeyUpdate s w t with
            workers := (noKeyUpdate s w t).workers.set w .start, now := t' }) := by
  have hwset : (s.workers.set w (.throttled (t + 1000)))[w]?
      = some (.throttled (t + 1000)) := by
    rw [getElem?_set_of_some hw, if_pos rfl]
  refine ⟨Step.noKey s w t fid rest hw hp hq hsel ht, hq, rfl, rfl, hwset, ?_⟩
  intro t' ht'
  exact Step.wakeWorker (noKeyUpdate s w t) w t' (t + 1000) hwset ht' (by
    show t ≤ t'
    omega)

/-- The state used by the C6 witness: one worker, one busy key, one queued
file. -/
def c6State : SchedState :=
  { processing := true
    activeWorkers := 0
    queue := ["f1"]
    activeKeys := ["k1"]
    cooldowns := []
    nextKeyIdx := 0
    files := [⟨"f1", .pending, none⟩]
    workers := [.start]
    pendingChecks := []
    now := 0 }

/-- Closed instance of C6 at time 2 with the only key busy. -/
theorem c6_throttle_wait_witness :
    Step ["k1"] c6State (noKeyUpdate c6State 0 2) ∧
    (noKeyUpdate c6State 0 2).queue = "f1" :: [] ∧
    (noKeyUpdate c6State 0 2).files = c6State.files ∧
    (noKeyUpdate c6State 0 2).activeWorkers = c6State.activeWorkers ∧
    (noKeyUpdate c6State 0 2).workers[0]? = some (.throttled (2 + 1000)) ∧
    (∀ t', 2 + 1000 ≤ t' →
      Step ["k1"] (noKeyUpdate c6State 0 2)
        { noKeyUpdate c6State 0 2 with
            workers := (noKeyUpdate c6State 0 2).workers.set 0 .start, now := t' }) :=
  c6_throttle_wait ["k1"] c6State 0 2 "f1" [] (by decide) (by decide) (by decide)
    (by decide) (by decide)

/-- C7: a run only reports finished through the grace-delayed re-check —
the flag drops exactly on a timer step that still sees an empty queue and a
zero in-flight counter after an elapsed scheduled grace delay — and once
the flag is down every item is Completed or Failed, none left Processing
or Pending. -/
theorem c7_completion_detector
    (keys : List String) (files0 : List FileItem) (cd0 : List (String × Nat))
    (ptr0 t0 : Nat) (s : SchedState)
    (hids : (files0.map FileItem.id).Nodup)
    (hst : ∀ f ∈ files0, f.status ≠ .processing)
    (hcd : ∀ p ∈ cd0, p.2 ≤ t0 + 30000)
    (hreach : Reachable keys files0 cd0 ptr0 t0 s) :
    (s.processing = false → ∀ f ∈ s.files,
      f.status = .completed ∨ f.status = .failed) ∧
    (∀ s', Step keys s s' → s.processing = true → s'.processing = false →
      s.queue = [] ∧ s.activeWorkers = 0 ∧ ∃ c ∈ s.pendingChecks, c ≤ s'.now) := by
  have inv := inv_of_reachable hids hst hcd hreach
  constructor
  · intro hpf f hf
    obtain ⟨hq, hnf⟩ := inv.done_quiet hpf
    cases hstat : f.status with
    | pending =>
      rcases inv.pend_cov f hf (Or.inl hstat) with hmem | ⟨w', k', hfl⟩
      · rw [hq] at hmem
        exact absurd hmem (List.not_mem_nil _)
      · exact absurd hfl (hnf w' f.id k')
    | processing =>
      rcases inv.pend_cov f hf (Or.inr hstat) with hmem | ⟨w', k', hfl⟩
      · rw [hq] at hmem
        exact absurd hmem (List.not_mem_nil _)
      · exact absurd hfl (hnf w' f.id k')
    | completed => exact Or.inl rfl
    | failed => exact Or.inr rfl
  · intro s' hstep hp hp'
    exact processing_flip hstep hp hp'

/-- Closed instance of C7 at the start state of a one-file, one-key run. -/
theorem c7_completion_detector_witness :
    (w5Start.processing = false → ∀ f ∈ w5Start.files,
      f.status = .completed ∨ f.status = .failed) ∧
    (∀ s', Step ["k1"] w5Start s' → w5Start.processing = true →
      s'.processing = false →
      w5Start.queue = [] ∧ w5Start.activeWorkers = 0 ∧
      ∃ c ∈ w5Start.pendingChecks, c ≤ s'.now) :=
  c7_completion_detector ["k1"] [⟨"f1", .pending, none⟩] [] 0 0 w5Start
    (by decide) (by decide) (by decide) Relation.ReflTransGen.refl

/-- C8: a permanent-class generation failure marks exactly the affected
item Failed with the error recorded, requeues nothing and leaves both the
queue and every other item untouched; retryItem never edits the queue; and
a later startProcessing sweep enqueues exactly the Pending-or-Failed items
in display order without duplicates, resetting each Failed item to Pending
with its error cleared. -/
theorem c8_permanent_failure_and_sweep
    (keys : List String) (files0 : List FileItem) (cd0 : List (String × Nat))
    (ptr0 t0 : Nat) (s : SchedState)
    (hids : (files0.map FileItem.id).Nodup)
    (hst : ∀ f ∈ files0, f.status ≠ .processing)
    (hcd : ∀ p ∈ cd0, p.2 ≤ t0 + 30000)
    (hreach : Reachable keys files0 cd0 ptr0 t0 s)
    (w t : Nat) (fid k e : String)
    (hw : flightAt s w fid k)
    (he : isKeyError e = false)
    (ht : s.now ≤ t) :
    (Step keys s (permErrorUpdate s w t fid k e) ∧
     (permErrorUpdate s w t fid k e).queue = s.queue ∧
     fid ∉ (permErrorUpdate s w t fid k e).queue ∧
     (∀ f ∈ (permErrorUpdate s w t fid k e).files, f.id = fid →
       f.status = .failed ∧ f.error = some e) ∧
     (∀ f ∈ s.files, f.id ≠ fid → f ∈ (permErrorUpdate s w t fid k e).files)) ∧
    (∀ s₀ id, (retryItem s₀ id).queue = s₀.queue) ∧
    (∀ (files : List FileItem) cd1 ptr1 t1,
      (startState keys files cd1 ptr1 t1).queue =
        (files.filter (fun f => f.status = .pending || f.status = .failed)).map
          FileItem.id ∧
      ((files.map FileItem.id).Nodup → (startState keys files cd1 ptr1 t1).queue.Nodup) ∧
      (∀ f ∈ files, f.status = .failed →
        { f with status := .pending, error := none } ∈
          (startState keys files cd1 ptr1 t1).files) ∧
      (∀ f ∈ files, f.status ≠ .failed → f ∈ (startState keys files cd1 ptr1 t1).files)) := by
  have inv := inv_of_reachable hids hst hcd hreach
  refine ⟨⟨Step.finishPermError s w t fid k e hw he ht, rfl, ?_, ?_, ?_⟩,
    fun s₀ id => rfl, ?_⟩
  · exact inv.flight_queue w fid k hw
  · intro f hf hid
    obtain ⟨f0, hf0, rfl⟩ := mem_setFailedStatus hf
    by_cases h0 : f0.id = fid
    · rw [if_pos h0]
      exact ⟨rfl, rfl⟩
    · rw [if_neg h0] at hid
      exact absurd hid h0
  · intro f hf hid
    exact List.mem_map.mpr ⟨f, hf, by rw [if_neg hid]⟩
  · intro files cd1 ptr1 t1
    refine ⟨rfl, ?_, ?_, ?_⟩
    · intro hnd
      have hsub : List.Sublist
          ((files.filter (fun f => f.status = .pending || f.status = .failed)).map
            FileItem.id)
          (files.map FileItem.id) :=
        List.Sublist.map _ (List.filter_sublist files)
      exact hnd.sublist hsub
    · intro f hf hfail
      exact List.mem_map.mpr ⟨f, hf, by rw [if_pos hfail]⟩
    · intro f hf hfail
      exact List.mem_map.mpr ⟨f, hf, by rw [if_neg hfail]⟩

/-- Closed instance of C8: an unsupported-format failure in the one-file
run, followed by an arbitrary sweep over a two-item collection. -/
theorem c8_permanent_failure_and_sweep_witness :
    (Step ["k1"] w5Mid (permErrorUpdate w5Mid 0 7 "f1" "k1" "Unsupported format") ∧
     (permErrorUpdate w5Mid 0 7 "f1" "k1" "Unsupported format").queue = w5Mid.queue ∧
     "f1" ∉ (permErrorUpdate w5Mid 0 7 "f1" "k1" "Unsupported format").queue ∧
     (∀ f ∈ (permErrorUpdate w5Mid 0 7 "f1" "k1" "Unsupported format").files,
       f.id = "f1" → f.status = .failed ∧ f.error = some "Unsupported format") ∧
     (∀ f ∈ w5Mid.files, f.id ≠ "f1" →
       f ∈ (permErrorUpdate w5Mid 0 7 "f1" "k1" "Unsupported format").files)) ∧
    (∀ s₀ id, (retryItem s₀ id).queue = s₀.queue) ∧
    (∀ (files : List FileItem) cd1 ptr1 t1,
      (startState ["k1"] files cd1 ptr1 t1).queue =
        (files.filter (fun f => f.status = .pending || f.status = .failed)).map
          FileItem.id ∧
      ((files.map FileItem.id).Nodup →
        (startState ["k1"] files cd1 ptr1 t1).queue.Nodup) ∧
      (∀ f ∈ files, f.status = .failed →
        { f with status := .pending, error := none } ∈
          (startState ["k1"] files cd1 ptr1 t1).files) ∧
      (∀ f ∈ files, f.status ≠ .failed →
        f ∈ (startState ["k1"] files cd1 ptr1 t1).files)) :=
  c8_permanent_failure_and_sweep ["k1"] [⟨"f1", .pending, none⟩] [] 0 0 w5Mid
    (by decide) (by decide) (by decide)
    (Relation.ReflTransGen.single
      (Step.gotKey w5Start 0 0 "f1" [] "k1" 0 (by decide) (by decide) (by decide)
        (by decide) (by decide)))
    0 7 "f1" "k1" "Unsupported format" (by rfl) (by decide) (by decide)

/-- C9: retryItem rewrites only the item status and leaves the queue
untouched, and the startProcessing sweep that follows enqueues an id only
for items then Pending or Failed — an item still Completed at that moment
is never enqueued. -/
theorem c9_retry_completed_noop
    (s : SchedState) (id : String) (files : List FileItem)
    (hids : (files.map FileItem.id).Nodup) :
    (retryItem s id).queue = s.queue ∧
    (∀ (keys : List String) cd1 ptr1 t1,
      (startState keys files cd1 ptr1 t1).queue = seedQueue files) ∧
    (∀ idq, idq ∈ seedQueue files →
      ∃ f ∈ files, f.id = idq ∧ (f.status = .pending ∨ f.status = .failed)) ∧
    (∀ f ∈ files, f.status = .completed → f.id ∉ seedQueue files) := by
  refine ⟨rfl, fun keys cd1 ptr1 t1 => rfl, ?_, ?_⟩
  · intro idq hmem
    simp only [seedQueue, List.mem_map] at hmem
    obtain ⟨f, hf, rfl⟩ := hmem
    have hf1 := List.mem_filter.mp hf
    refine ⟨f, hf1.1, rfl, ?_⟩
    have := hf1.2
    simp only [Bool.or_eq_true, decide_eq_true_eq] at this
    exact this
  · intro f hf hcomp hmem
    simp only [seedQueue, List.mem_map] at hmem
    obtain ⟨f', hf', hfid⟩ := hmem
    have hf'1 := List.mem_filter.mp hf'
    have heq : f' = f := List.inj_on_of_nodup_map hids hf'1.1 hf hfid
    have := hf'1.2
    rw [heq, hcomp] at this
    exact absurd this (by decide)

/-- Closed instance of C9 over a collection holding one Completed item. -/
theorem c9_retry_completed_noop_witness :
    (retryItem c6State "f2").queue = c6State.queue ∧
    (∀ (keys : List String) cd1 ptr1 t1,
      (startState keys [⟨"f2", .completed, none⟩] cd1 ptr1 t1).queue =
        seedQueue [⟨"f2", .completed, none⟩]) ∧
    (∀ idq, idq ∈ seedQueue [⟨"f2", .completed, none⟩] →
      ∃ f ∈ [(⟨"f2", .completed, none⟩ : FileItem)], f.id = idq ∧
        (f.status = .pending ∨ f.status = .failed)) ∧
    (∀ f ∈ [(⟨"f2", .completed, none⟩ : FileItem)], f.status = .completed →
      f.id ∉ seedQueue [⟨"f2", .completed, none⟩]) :=
  c9_retry_completed_noop c6State "f2" [⟨"f2", .completed, none⟩] (by decide)

/-- C10: a successful generation always returns fully populated metadata:
each bilingual title and keywords slot carries the model's string when one
was produced and the empty string when it was omitted, and the returned
category is the model's category exactly when its id occurs in CATEGORIES
and the literal id 8 in every other case. -/
theorem c10_metadata_normalization (cats : List Category) (parsed : ParsedResponse) :
    ((parsed.en.bind ParsedLocalized.title = none →
       (normalizeMetadata cats parsed).en.title = "") ∧
     (∀ v, parsed.en.bind ParsedLocalized.title = some v →
       (normalizeMetadata cats parsed).en.title = v) ∧
     (parsed.en.bind ParsedLocalized.keywords = none →
       (normalizeMetadata cats parsed).en.keywords = "") ∧
     (∀ v, parsed.en.bind ParsedLocalized.keywords = some v →
       (normalizeMetadata cats parsed).en.keywords = v) ∧
     (parsed.ind.bind ParsedLocalized.title = none →
       (normalizeMetadata cats parsed).ind.title = "") ∧
     (∀ v, parsed.ind.bind ParsedLocalized.title = some v →
       (normalizeMetadata cats parsed).ind.title = v) ∧
     (parsed.ind.bind ParsedLocalized.keywords = none →
       (normalizeMetadata cats parsed).ind.keywords = "") ∧
     (∀ v, parsed.ind.bind ParsedLocalized.keywords = some v →
       (normalizeMetadata cats parsed).ind.keywords = v)) ∧
    (∀ c, parsed.category = some c →
      ((∃ cat ∈ cats, cat.id = c) → (normalizeMetadata cats parsed).category = c) ∧
      (¬ (∃ cat ∈ cats, cat.id = c) → (normalizeMetadata cats parsed).category = "8")) ∧
    (parsed.category = none → (normalizeMetadata cats parsed).category = "8") := by
  refine ⟨⟨?_, ?_, ?_, ?_, ?_, ?_, ?_, ?_⟩, ?_, ?_⟩
  · intro h
    simp [normalizeMetadata, h, orEmpty]
  · intro v h
    simp [normalizeMetadata, h, orEmpty]
  · intro h
    simp [normalizeMetadata, h, orEmpty]
  · intro v h
    simp [normalizeMetadata, h, orEmpty]
  · intro h
    simp [normalizeMetadata, h, orEmpty]
  · intro v h
    simp [normalizeMetadata, h, orEmpty]
  · intro h
    simp [normalizeMetadata, h, orEmpty]
  · intro v h
    simp [normalizeMetadata, h, orEmpty]
  · intro c hc
    constructor
    · intro hex
      have hany : cats.any (fun cat => cat.id = c) = true := by
        rw [List.any_eq_true]
        obtain ⟨cat, hcat, hid⟩ := hex
        exact ⟨cat, hcat, by simp [hid]⟩
      simp [normalizeMetadata, validCategory, hc, hany]
    · intro hex
      have hany : cats.any (fun cat => cat.id = c) = false := by
        rw [Bool.eq_false_iff]
        intro hc'
        rw [List.any_eq_true] at hc'
        obtain ⟨cat, hcat, hid⟩ := hc'
        exact hex ⟨cat, hcat, by simpa using hid⟩
      simp [normalizeMetadata, validCategory, hc, hany]
  · intro hc
    simp [normalizeMetadata, validCategory, hc]

/-- Closed instance of C10: a response missing the English slot whose
category id 9 is not in the single-entry category list. -/
theorem c10_metadata_normalization_witness :
    ((((⟨none, some ⟨some "t", none⟩, some "9"⟩ : ParsedResponse)).en.bind
        ParsedLocalized.title = none →
      (normalizeMetadata [⟨"1", "Animals", "Hewan"⟩]
        ⟨none, some ⟨some "t", none⟩, some "9"⟩).en.title = "") ∧
     (∀ v, (⟨none, some ⟨some "t", none⟩, some "9"⟩ : ParsedResponse).en.bind
        ParsedLocalized.title = some v →
      (normalizeMetadata [⟨"1", "Animals", "Hewan"⟩]
        ⟨none, some ⟨some "t", none⟩, some "9"⟩).en.title = v) ∧
     ((⟨none, some ⟨some "t", none⟩, some "9"⟩ : ParsedResponse).en.bind
        ParsedLocalized.keywords = none →
      (normalizeMetadata [⟨"1", "Animals", "Hewan"⟩]
        ⟨none, some ⟨some "t", none⟩, some "9"⟩).en.keywords = "") ∧
     (∀ v, (⟨none, some ⟨some "t", none⟩, some "9"⟩ : ParsedResponse).en.bind
        ParsedLocalized.keywords = some v →
      (normalizeMetadata [⟨"1", "Animals", "Hewan"⟩]
        ⟨none, some ⟨some "t", none⟩, some "9"⟩).en.keywords = v) ∧
     ((⟨none, some ⟨some "t", none⟩, some "9"⟩ : ParsedResponse).ind.bind
        ParsedLocalized.title = none →
      (normalizeMetadata [⟨"1", "Animals", "Hewan"⟩]
        ⟨none, some ⟨some "t", none⟩, some "9"⟩).ind.title = "") ∧
     (∀ v, (⟨none, some ⟨some "t", none⟩, some "9"⟩ : ParsedResponse).ind.bind
        ParsedLocalized.title = some v →
      (normalizeMetadata [⟨"1", "Animals", "Hewan"⟩]
        ⟨none, some ⟨some "t", none⟩, some "9"⟩).ind.title = v) ∧
     ((⟨none, some ⟨some "t", none⟩, some "9"⟩ : ParsedResponse).ind.bind
        ParsedLocalized.keywords = none →
      (normalizeMetadata [⟨"1", "Animals", "Hewan"⟩]
        ⟨none, some ⟨some "t", none⟩, some "9"⟩).ind.keywords = "") ∧
     (∀ v, (⟨none, some ⟨some "t", none⟩, some "9"⟩ : ParsedResponse).ind.bind
        ParsedLocalized.keywords = some v →
      (normalizeMetadata [⟨"1", "Animals", "Hewan"⟩]
        ⟨none, some ⟨some "t", none⟩, some "9"⟩).ind.keywords = v)) ∧
    (∀ c, (⟨none, some ⟨some "t", none⟩, some "9"⟩ : ParsedResponse).category = some c →
      ((∃ cat ∈ [(⟨"1", "Animals", "Hewan"⟩ : Category)], cat.id = c) →
        (normalizeMetadata [⟨"1", "Animals", "Hewan"⟩]
          ⟨none, some ⟨some "t", none⟩, some "9"⟩).category = c) ∧
      (¬ (∃ cat ∈ [(⟨"1", "Animals", "Hewan"⟩ : Category)], cat.id = c) →
        (normalizeMetadata [⟨"1", "Animals", "Hewan"⟩]
          ⟨none, some ⟨some "t", none⟩, some "9"⟩).category = "8")) ∧
    ((⟨none, some ⟨some "t", none⟩, some "9"⟩ : ParsedResponse).category = none →
      (normalizeMetadata [⟨"1", "Animals", "Hewan"⟩]
        ⟨none, some ⟨some "t", none⟩, some "9"⟩).category = "8") :=
  c10_metadata_normalization [⟨"1", "Animals", "Hewan"⟩]
    ⟨none, some ⟨some "t", none⟩, some "9"⟩

end IsaProMe
